import Mathlib

/-!
Verification of the forwarding handler of `app.py` (a single-file HTTP proxy
that relays chat-completion requests to a fixed upstream endpoint).

The development shallowly embeds the request-handling logic of `app.py`:

* JSON values are modelled by the inductive type `Json`; the Python `json`
  module's `dumps`/`loads` are modelled by executable functions `dumps` and
  `loads` (JSON numbers are modelled as integers; floating-point literals are
  outside the model, `loads` simply fails on them and `dumps` never emits
  them, and surrogate escape sequences are likewise rejected by `loads`).
* Byte strings are modelled as `List Nat` (one octet per entry); Python's
  `bytes.decode("utf-8")` / `str.encode("utf-8")` are modelled by the strict
  UTF-8 codec `decodeUtf8` / `encodeUtf8`.
* The handler methods `do_GET`, `do_OPTIONS`, `do_POST` and the helper
  `_send_json` are modelled by `doGET`, `doOPTIONS`, `doPOST` and `sendJson`.
  The single outbound `requests.post` call is modelled by recording the
  outbound request and consuming a caller-supplied `UpstreamResult` (the
  behaviour of the network); `doPOST` returns both the handler's outcome and
  the outbound request it issued (if any).
-/

namespace GroqProxy

/-- A byte string: one octet per entry. -/
abbrev Bytes := List Nat

/-! ### JSON values (model of the values handled by Python's `json` module) -/

/-- A JSON value.  Numbers are modelled as integers; object members keep
their textual order, as Python preserves insertion order. -/
inductive Json where
  | null
  | bool (b : Bool)
  | num (n : Int)
  | str (s : List Char)
  | arr (elems : List Json)
  | obj (members : List (List Char × Json))
  deriving Repr

/-- Is this JSON value `null`?  (Python's `json.loads` returns `None` for the
input `"null"`, which the handler's `payload is not None` test then treats
like a parse failure.) -/
def Json.isNull : Json → Bool
  | .null => true
  | _ => false

/-! ### Decimal digits -/

/-- The decimal digit character for `d < 10`. -/
def digitChar (d : Nat) : Char := Char.ofNat (48 + d)

/-- Decimal representation of a natural number (no leading zeros). -/
def natChars (n : Nat) : List Char :=
  if n < 10 then [digitChar n] else natChars (n / 10) ++ [digitChar (n % 10)]
decreasing_by exact Nat.div_lt_self (by omega) (by omega)

/-- Decimal representation of an integer, as Python's `str`/`json.dumps`
prints it. -/
def numChars : Int → List Char
  | .ofNat n => natChars n
  | .negSucc m => '-' :: natChars (m + 1)

/-- Is `c` a decimal digit? -/
def isDigitChar (c : Char) : Bool := 48 ≤ c.toNat && c.toNat ≤ 57

/-- Numeric value of a digit character. -/
def digitVal (c : Char) : Nat := c.toNat - 48

/-- Value of a list of decimal digit characters (most significant first). -/
def digitsToNat (l : List Char) : Nat := l.foldl (fun a c => a * 10 + digitVal c) 0

/-- The lower-case hexadecimal digit character for `d < 16` (as Python's
`json.dumps` prints `\uXXXX` escapes). -/
def hexDigitChar (d : Nat) : Char :=
  if d < 10 then Char.ofNat (48 + d) else Char.ofNat (97 + d - 10)

/-- Numeric value of a hexadecimal digit character, if it is one. -/
def hexVal (c : Char) : Option Nat :=
  if 48 ≤ c.toNat ∧ c.toNat ≤ 57 then some (c.toNat - 48)
  else if 97 ≤ c.toNat ∧ c.toNat ≤ 102 then some (c.toNat - 97 + 10)
  else if 65 ≤ c.toNat ∧ c.toNat ≤ 70 then some (c.toNat - 65 + 10)
  else none

/-! ### Serialization: model of `json.dumps`

`json.dumps` with its default separators prints `", "` between array
elements and object members and `": "` after each key.  Control characters
in strings are escaped (`\n`, `\t`, `\r`, `\b`, `\f`, or `\u00XX`), as are
`"` and `\`.  (We model the codec with `ensure_ascii=False` so that
non-ASCII characters are emitted literally; this does not affect any
parsed-value property.) -/

/-- Escape one character of a JSON string, as `json.dumps` does. -/
def escChar (c : Char) : List Char :=
  if c = '"' then ['\\', '"']
  else if c = '\\' then ['\\', '\\']
  else if c = '\n' then ['\\', 'n']
  else if c = '\t' then ['\\', 't']
  else if c = '\r' then ['\\', 'r']
  else if c.toNat = 8 then ['\\', 'b']
  else if c.toNat = 12 then ['\\', 'f']
  else if c.toNat < 32 then
    ['\\', 'u', '0', '0', hexDigitChar (c.toNat / 16), hexDigitChar (c.toNat % 16)]
  else [c]

/-- Escape a JSON string body. -/
def escapeString (s : List Char) : List Char := List.flatten (s.map escChar)

mutual

/-- Model of `json.dumps` (default separators). -/
def dumps : Json → List Char
  | .null => ("null").toList
  | .bool b => if b then ("true").toList else ("false").toList
  | .num n => numChars n
  | .str s => '"' :: (escapeString s ++ ['"'])
  | .arr es => '[' :: (dumpsElems es ++ [']'])
  | .obj ms => '{' :: (dumpsMembers ms ++ ['}'])

/-- Serialize array elements, joined by `", "`. -/
def dumpsElems : List Json → List Char
  | [] => []
  | [v] => dumps v
  | v :: v2 :: vs => dumps v ++ ',' :: ' ' :: dumpsElems (v2 :: vs)

/-- Serialize object members, joined by `", "`, with `": "` after each key. -/
def dumpsMembers : List (List Char × Json) → List Char
  | [] => []
  | [(k, v)] => '"' :: (escapeString k ++ '"' :: ':' :: ' ' :: dumps v)
  | (k, v) :: m2 :: ms =>
      ('"' :: (escapeString k ++ '"' :: ':' :: ' ' :: dumps v)) ++
        ',' :: ' ' :: dumpsMembers (m2 :: ms)

end

/-! ### Parsing: model of `json.loads`

A recursive-descent parser.  `json.loads` tolerates ASCII whitespace
around tokens, rejects leading zeros in numbers, rejects unescaped control
characters inside strings, and requires the whole input to be consumed. -/

/-- JSON whitespace. -/
def isWsChar (c : Char) : Bool := c = ' ' || c = '\t' || c = '\n' || c = '\r'

/-- Drop leading JSON whitespace. -/
def skipWs (s : List Char) : List Char := s.dropWhile isWsChar

/-- If `pre` is a literal prefix of `s`, return the remainder. -/
def dropPref : List Char → List Char → Option (List Char)
  | [], s => some s
  | _ :: _, [] => none
  | p :: ps, c :: cs => if p = c then dropPref ps cs else none

/-- Split off the leading run of decimal digits. -/
def takeDigits : List Char → List Char × List Char
  | [] => ([], [])
  | c :: t =>
    if isDigitChar c then
      let p := takeDigits t
      (c :: p.1, p.2)
    else ([], c :: t)

/-- Parse a natural-number literal (JSON rejects leading zeros). -/
def parseNatToken (s : List Char) : Option (Nat × List Char) :=
  match takeDigits s with
  | ([], _) => none
  | (d :: ds, r) => if d = '0' ∧ ds ≠ [] then none else some (digitsToNat (d :: ds), r)

/-- Parse an integer literal (an optional minus sign, then digits). -/
def parseNumToken : List Char → Option (Int × List Char)
  | [] => none
  | c :: r =>
    if c = '-' then (parseNatToken r).map (fun p => (-(p.1 : Int), p.2))
    else (parseNatToken (c :: r)).map (fun p => ((p.1 : Int), p.2))

/-- Resolve a single-character escape (everything but `\u`). -/
def unescapeChar (e : Char) : Option Char :=
  if e = '"' then some '"'
  else if e = '\\' then some '\\'
  else if e = '/' then some '/'
  else if e = 'b' then some (Char.ofNat 8)
  else if e = 'f' then some (Char.ofNat 12)
  else if e = 'n' then some '\n'
  else if e = 'r' then some '\r'
  else if e = 't' then some '\t'
  else none

/-- Parse the body of a string literal (the opening quote already consumed),
up to and including the closing quote.  Unescaped control characters are
rejected; surrogate `\u` escapes are outside the model. -/
def parseStringBody : List Char → Option (List Char × List Char)
  | [] => none
  | c :: r =>
    if c = '"' then some ([], r)
    else if c = '\\' then
      match r with
      | [] => none
      | e :: r2 =>
        if e = 'u' then
          match r2 with
          | h1 :: h2 :: h3 :: h4 :: r3 =>
            match hexVal h1, hexVal h2, hexVal h3, hexVal h4 with
            | some a, some b, some x, some d =>
              let cp := ((a * 16 + b) * 16 + x) * 16 + d
              if cp < 0xD800 ∨ 0xDFFF < cp then
                (parseStringBody r3).map (fun p => (Char.ofNat cp :: p.1, p.2))
              else none
            | _, _, _, _ => none
          | _ => none
        else
          match unescapeChar e with
          | some u => (parseStringBody r2).map (fun p => (u :: p.1, p.2))
          | none => none
    else if c.toNat < 32 then none
    else (parseStringBody r).map (fun p => (c :: p.1, p.2))

mutual

/-- Parse one JSON value (leading whitespace allowed), returning it and the
unconsumed remainder.  `fuel` bounds the recursion depth; `loads` passes
enough for any input it is given. -/
def parseValue : Nat → List Char → Option (Json × List Char)
  | 0, _ => none
  | fuel + 1, s =>
    match skipWs s with
    | [] => none
    | c :: r =>
      if c = '-' || isDigitChar c then
        (parseNumToken (c :: r)).map (fun p => (Json.num p.1, p.2))
      else if c = 'n' then (dropPref ['u', 'l', 'l'] r).map (fun rest => (Json.null, rest))
      else if c = 't' then (dropPref ['r', 'u', 'e'] r).map (fun rest => (Json.bool true, rest))
      else if c = 'f' then (dropPref ['a', 'l', 's', 'e'] r).map (fun rest => (Json.bool false, rest))
      else if c = '"' then (parseStringBody r).map (fun p => (Json.str p.1, p.2))
      else if c = '[' then
        match skipWs r with
        | [] => none
        | d :: r2 =>
          if d = ']' then some (Json.arr [], r2)
          else
            match parseElems fuel (d :: r2) with
            | some (es, rest) => some (Json.arr es, rest)
            | none => none
      else if c = '{' then
        match skipWs r with
        | [] => none
        | d :: r2 =>
          if d = '}' then some (Json.obj [], r2)
          else
            match parseMembers fuel (d :: r2) with
            | some (ms, rest) => some (Json.obj ms, rest)
            | none => none
      else none

/-- Parse the elements of a non-empty array, up to and including `]`. -/
def parseElems : Nat → List Char → Option (List Json × List Char)
  | 0, _ => none
  | fuel + 1, s =>
    match parseValue fuel s with
    | none => none
    | some (v, r) =>
      match skipWs r with
      | [] => none
      | d :: r2 =>
        if d = ',' then
          match parseElems fuel r2 with
          | some (vs, rest) => some (v :: vs, rest)
          | none => none
        else if d = ']' then some ([v], r2)
        else none

/-- Parse the members of a non-empty object, up to and including `}`. -/
def parseMembers : Nat → List Char → Option (List (List Char × Json) × List Char)
  | 0, _ => none
  | fuel + 1, s =>
    match skipWs s with
    | [] => none
    | c :: r =>
      if c = '"' then
        match parseStringBody r with
        | none => none
        | some (k, r1) =>
          match skipWs r1 with
          | [] => none
          | d :: r2 =>
            if d = ':' then
              match parseValue fuel r2 with
              | none => none
              | some (v, r3) =>
                match skipWs r3 with
                | [] => none
                | e :: r4 =>
                  if e = ',' then
                    match parseMembers fuel r4 with
                    | some (ms, rest) => some ((k, v) :: ms, rest)
                    | none => none
                  else if e = '}' then some ([(k, v)], r4)
                  else none
            else none
      else none

end

/-- Model of `json.loads`: parse a complete JSON document (whitespace around
it allowed, nothing else may remain). -/
def loads (s : List Char) : Option Json :=
  match parseValue (s.length + 1) s with
  | some (v, rest) => if skipWs rest = [] then some v else none
  | none => none

/-! ### UTF-8 (model of `str.encode("utf-8")` and `bytes.decode("utf-8")`)

Python's codec is strict: it rejects stray continuation bytes, truncated
sequences, overlong encodings, surrogate code points and code points past
`0x10FFFF`. -/

/-- UTF-8 encoding of one Unicode scalar value. -/
def encodeCp (n : Nat) : Bytes :=
  if n < 0x80 then [n]
  else if n < 0x800 then [0xC0 + n / 0x40, 0x80 + n % 0x40]
  else if n < 0x10000 then [0xE0 + n / 0x1000, 0x80 + n / 0x40 % 0x40, 0x80 + n % 0x40]
  else [0xF0 + n / 0x40000, 0x80 + n / 0x1000 % 0x40, 0x80 + n / 0x40 % 0x40, 0x80 + n % 0x40]

/-- Model of `str.encode("utf-8")`. -/
def encodeUtf8 (s : List Char) : Bytes := List.flatten (s.map (fun c => encodeCp c.toNat))

/-- Is `b` a UTF-8 continuation byte? -/
def isCont (b : Nat) : Bool := 0x80 ≤ b && b < 0xC0

mutual

/-- Model of `bytes.decode("utf-8")` (strict mode): `none` models a raised
`UnicodeDecodeError`. -/
def decodeUtf8 : Bytes → Option (List Char)
  | [] => some []
  | b0 :: t =>
    if b0 < 0x80 then (decodeUtf8 t).map (fun s => Char.ofNat b0 :: s)
    else if b0 < 0xC2 then none
    else if b0 < 0xE0 then decodeUtf8Two b0 t
    else if b0 < 0xF0 then decodeUtf8Three b0 t
    else if b0 < 0xF5 then decodeUtf8Four b0 t
    else none

/-- Continuation of `decodeUtf8` after a two-byte lead byte. -/
def decodeUtf8Two (b0 : Nat) : Bytes → Option (List Char)
  | [] => none
  | b1 :: t =>
    if isCont b1 then
      (decodeUtf8 t).map (fun s => Char.ofNat ((b0 - 0xC0) * 0x40 + (b1 - 0x80)) :: s)
    else none

/-- Continuation of `decodeUtf8` after a three-byte lead byte; rejects
overlong forms and surrogates. -/
def decodeUtf8Three (b0 : Nat) : Bytes → Option (List Char)
  | [] => none
  | [_] => none
  | b1 :: b2 :: t =>
    if isCont b1 && isCont b2 then
      let n := (b0 - 0xE0) * 0x1000 + (b1 - 0x80) * 0x40 + (b2 - 0x80)
      if 0x800 ≤ n ∧ (n < 0xD800 ∨ 0xDFFF < n) then
        (decodeUtf8 t).map (fun s => Char.ofNat n :: s)
      else none
    else none

/-- Continuation of `decodeUtf8` after a four-byte lead byte; rejects
overlong forms and code points past `0x10FFFF`. -/
def decodeUtf8Four (b0 : Nat) : Bytes → Option (List Char)
  | [] => none
  | [_] => none
  | [_, _] => none
  | b1 :: b2 :: b3 :: t =>
    if isCont b1 && isCont b2 && isCont b3 then
      let n := (b0 - 0xF0) * 0x40000 + (b1 - 0x80) * 0x1000 +
                 (b2 - 0x80) * 0x40 + (b3 - 0x80)
      if 0x10000 ≤ n ∧ n < 0x110000 then
        (decodeUtf8 t).map (fun s => Char.ofNat n :: s)
      else none
    else none

end

/-! ### Small string utilities used by the handler -/

/-- Is the first list a literal prefix of the second? -/
def isPref : List Char → List Char → Bool
  | [], _ => true
  | _ :: _, [] => false
  | a :: as, b :: bs => a = b && isPref as bs

/-- Python's `needle in haystack` substring test. -/
def hasSub (needle : List Char) : List Char → Bool
  | [] => needle.isEmpty
  | c :: t => isPref needle (c :: t) || hasSub needle t

/-- Python's `str.lower` (ASCII case folding; the content types compared in
the handler are ASCII). -/
def lowerStr (s : List Char) : List Char := s.map Char.toLower

/-! ### The handler (model of `ProxyHandler` in `app.py`)

The handler's environment is passed explicitly: `apiKey` models the
`GROQ_API_KEY` environment variable (`none` = unset), and the behaviour of
the single `requests.post` call is supplied as an `UpstreamResult`.  `path`
stands for `urlparse(self.path).path`, the already-parsed request path.
Logging is pure observation and is not modelled. -/

/-- What the upstream transport returned: a response, or a raised
`requests.RequestException` whose `str(e)` is `detail`. -/
structure UpstreamResponse where
  status : Nat
  /-- Value of the upstream `Content-Type` header; `none` if the header is
  absent. -/
  contentType : Option (List Char)
  body : Bytes

/-- Result of attempting the upstream call. -/
inductive UpstreamResult where
  | ok (resp : UpstreamResponse)
  | exn (detail : List Char)

/-- The outbound request the handler builds for `requests.post`. -/
structure OutboundRequest where
  authorization : List Char
  contentType : List Char
  /-- The transmitted payload: `json.dumps(payload)` re-encoded when the
  `json=` parameter is used, the raw `data=` bytes otherwise. -/
  body : Bytes

/-- An HTTP response as the handler writes it: status line, then the
`send_header` calls in order, then the body bytes. -/
structure Response where
  status : Nat
  headers : List (List Char × List Char)
  body : Bytes

/-- How one request ends: a response is written, or an uncaught exception
escapes the handler method (no response is produced by it). -/
inductive Outcome where
  | reply (r : Response)
  | uncaught

/-- Result of the forwarding path: the outcome, plus the outbound upstream
request if (exactly) one was issued. -/
structure PostResult where
  outcome : Outcome
  sent : Option OutboundRequest

/-- Number of upstream calls a `PostResult` performed. -/
def upstreamCallCount (r : PostResult) : Nat :=
  match r.sent with
  | some _ => 1
  | none => 0

/-- The three CORS headers of `_set_common_headers`, in order. -/
def corsHeaders : List (List Char × List Char) :=
  [(("Access-Control-Allow-Origin").toList, ("*").toList),
   (("Access-Control-Allow-Methods").toList, ("GET, POST, OPTIONS").toList),
   (("Access-Control-Allow-Headers").toList, ("Content-Type, Authorization").toList)]

/-- Header names and content types used by the handler. -/
def hContentType : List Char := ("Content-Type").toList
def hContentLength : List Char := ("Content-Length").toList
/-- Header name used to state that no response is chunked: the handler
never sets it. -/
def hTransferEncoding : List Char := ("Transfer-Encoding").toList
def mAppJson : List Char := ("application/json").toList
def mTextPlain : List Char := ("text/plain").toList
def mOctetStream : List Char := ("application/octet-stream").toList

/-- The forwarding route. -/
def chatPath : List Char := ("/v1/chat/completions").toList

/-- Body of the 404 response. -/
def notFoundJson : Json := Json.obj [(("error").toList, Json.str (("Not Found").toList))]

/-- Body of the 500 missing-credential response. -/
def misconfigJson : Json :=
  Json.obj [(("error").toList, Json.str (("Server misconfigured").toList)),
            (("detail").toList,
              Json.str (("Missing GROQ_API_KEY environment variable").toList))]

/-- Body of the 502 upstream-failure response. -/
def upstreamFailJson (detail : List Char) : Json :=
  Json.obj [(("error").toList, Json.str (("Upstream request failed").toList)),
            (("detail").toList, Json.str detail)]

/-- Model of `_send_json`: JSON content type, CORS headers, explicit
`Content-Length`, and the serialized payload as body. -/
def sendJson (status : Nat) (payload : Json) : Response :=
  let body := encodeUtf8 (dumps payload)
  { status := status,
    headers := (hContentType, mAppJson) :: corsHeaders ++
      [(hContentLength, natChars body.length)],
    body := body }

/-- Model of `do_GET`. -/
def doGET (path : List Char) : Response :=
  if path = ("/").toList ∨ path = ("/health").toList then
    { status := 200,
      headers := (hContentType, mTextPlain) :: corsHeaders,
      body := encodeUtf8 (("OK").toList) }
  else if path = chatPath then
    sendJson 200 (Json.obj [(("message").toList,
      Json.str (("POST this endpoint with a JSON body to proxy to Groq.").toList))])
  else
    sendJson 404 notFoundJson

/-- Model of `do_OPTIONS`. -/
def doOPTIONS : Response :=
  { status := 204, headers := corsHeaders, body := [] }

/-- Model of `upstream.json()`: decode the body and parse it as JSON.
(The charset-detection fallbacks of the HTTP client library are outside the
model; the content types at issue carry no charset, so UTF-8 is used.) -/
def loadsBytes (b : Bytes) : Option Json := (decodeUtf8 b).bind loads

/-- Model of `do_POST`, line by line:
  * wrong path → 404;
  * falsy `GROQ_API_KEY` (unset or empty) → 500, no upstream call;
  * read `Content-Length` bytes of the body (empty if the header is absent
    or zero), decode as UTF-8 — a failure here is an uncaught
    `UnicodeDecodeError` (the `try` below only wraps `json.loads`);
  * parse the body: empty text yields the payload `{}` (the
    `if body_text else {}` branch); a parse failure — or a parsed `null`,
    which Python's `None` sentinel conflates with failure — selects raw
    transmission of the body text's bytes;
  * issue the single upstream call; a transport exception → 502;
  * mirror the upstream response, content-type aware (an absent upstream
    `Content-Type` defaults to `application/json` via `headers.get`). -/
def doPOST (apiKey : Option (List Char)) (path : List Char) (contentLength : Nat)
    (rfileData : Bytes) (upstreamResult : UpstreamResult) : PostResult :=
  if path ≠ chatPath then ⟨.reply (sendJson 404 notFoundJson), none⟩
  else
    match apiKey with
    | none => ⟨.reply (sendJson 500 misconfigJson), none⟩
    | some key =>
      if key = [] then ⟨.reply (sendJson 500 misconfigJson), none⟩
      else
        let bodyBytes := if 0 < contentLength then rfileData.take contentLength else []
        match if bodyBytes = [] then some [] else decodeUtf8 bodyBytes with
        | none => ⟨.uncaught, none⟩
        | some bodyText =>
          let payload : Option Json :=
            if bodyText = [] then some (Json.obj [])
            else
              match loads bodyText with
              | some v => if v.isNull then none else some v
              | none => none
          let outbound : OutboundRequest :=
            { authorization := ("Bearer ").toList ++ key,
              contentType := mAppJson,
              body :=
                match payload with
                | some v => encodeUtf8 (dumps v)
                | none => encodeUtf8 bodyText }
          match upstreamResult with
          | .exn detail => ⟨.reply (sendJson 502 (upstreamFailJson detail)), some outbound⟩
          | .ok u =>
            let contentType := u.contentType.getD mAppJson
            if contentType ≠ [] ∧ hasSub mAppJson (lowerStr contentType) then
              match loadsBytes u.body with
              | some rj => ⟨.reply (sendJson u.status rj), some outbound⟩
              | none =>
                ⟨.reply { status := u.status,
                          headers := (hContentType, mTextPlain) :: corsHeaders,
                          body := u.body }, some outbound⟩
            else
              ⟨.reply { status := u.status,
                        headers := (hContentType,
                            if contentType ≠ [] then contentType else mOctetStream)
                          :: corsHeaders ++
                          [(hContentLength, natChars u.body.length)],
                        body := u.body }, some outbound⟩

/-- An inbound HTTP method.  The handler class defines `do_GET`,
`do_OPTIONS` and `do_POST`; every other method is refused by the serving
framework before any handler code runs. -/
inductive Method where
  | get
  | post
  | options
  | other (name : List Char)

/-- Modelled from the Python standard library (`http.server`):
`BaseHTTPRequestHandler.handle_one_request` answers `501 Unsupported
method` itself when the handler class defines no `do_<METHOD>` attribute.
Only the status is modelled; the stdlib body is an HTML error page (in
particular it is not the handler's 404 JSON body). -/
def frameworkUnsupported : Response :=
  { status := 501, headers := [], body := [] }

/-- One full request through the server: method dispatch as `http.server`
performs it, then the matching handler method. -/
def handleRequest (apiKey : Option (List Char)) (method : Method) (path : List Char)
    (contentLength : Nat) (rfileData : Bytes) (upstreamResult : UpstreamResult) :
    PostResult :=
  match method with
  | .get => ⟨.reply (doGET path), none⟩
  | .options => ⟨.reply doOPTIONS, none⟩
  | .post => doPOST apiKey path contentLength rfileData upstreamResult
  | .other _ => ⟨.reply frameworkUnsupported, none⟩

/-- Is the head of `rest` (if any) not a digit?  Contexts in which a
serialized number is re-parsed satisfy this, so the digit run ends where it
should. -/
def headNotDigit : List Char → Bool
  | [] => true
  | c :: _ => !isDigitChar c

mutual

/-- Fuel needed by `parseValue` to parse a serialized value. -/
def szV : Json → Nat
  | .null => 1
  | .bool _ => 1
  | .num _ => 1
  | .str _ => 1
  | .arr es => 1 + szL es
  | .obj ms => 1 + szO ms

/-- Fuel needed by `parseElems` to parse serialized array elements. -/
def szL : List Json → Nat
  | [] => 0
  | v :: vs => 1 + szV v + szL vs

/-- Fuel needed by `parseMembers` to parse serialized object members. -/
def szO : List (List Char × Json) → Nat
  | [] => 0
  | (_, v) :: ms => 1 + szV v + szO ms

end

/-- The body bytes `do_POST` reads, as a function of the `Content-Length`
value and the request stream. -/
def readBodyBytes (contentLength : Nat) (rfileData : Bytes) : Bytes :=
  if 0 < contentLength then rfileData.take contentLength else []

/-! ### Character arithmetic -/

theorem toNat_ofNat_valid {n : Nat} (h : n.isValidChar) : (Char.ofNat n).toNat = n := by
  simp only [Char.ofNat, dif_pos h, Char.ofNatAux, Char.toNat, UInt32.toNat]
  simp [BitVec.toNat_ofNatLt]

theorem toNat_ofNat_small {n : Nat} (h : n < 0xD800) : (Char.ofNat n).toNat = n :=
  toNat_ofNat_valid (Or.inl h)

theorem char_eq_of_toNat {c d : Char} (h : c.toNat = d.toNat) : c = d := by
  have h1 := Char.ofNat_toNat c
  rw [h, Char.ofNat_toNat d] at h1
  exact h1.symm

theorem char_toNat_valid (c : Char) : c.toNat.isValidChar := c.valid

/-! ### Decimal digits round-trip -/

theorem toNat_digitChar {d : Nat} (h : d < 10) : (digitChar d).toNat = 48 + d :=
  toNat_ofNat_small (by omega)

theorem digitChar_isDigit {d : Nat} (h : d < 10) : isDigitChar (digitChar d) = true := by
  simp [isDigitChar, toNat_digitChar h]
  omega

theorem digitVal_digitChar {d : Nat} (h : d < 10) : digitVal (digitChar d) = d := by
  simp [digitVal, toNat_digitChar h]

theorem digitChar_ne_zero_char {d : Nat} (h1 : 1 ≤ d) (h2 : d < 10) : digitChar d ≠ '0' := by
  intro hc
  have := congrArg Char.toNat hc
  rw [toNat_digitChar h2] at this
  have h0 : ('0').toNat = 48 := by decide
  omega

theorem natChars_cons (n : Nat) : ∃ d ds, natChars n = d :: ds := by
  induction n using Nat.strong_induction_on with
  | _ n ih =>
    rw [natChars]
    by_cases h : n < 10
    · exact ⟨digitChar n, [], by simp [h]⟩
    · obtain ⟨d, ds, hds⟩ := ih (n / 10) (Nat.div_lt_self (by omega) (by omega))
      exact ⟨d, ds ++ [digitChar (n % 10)], by simp [h, hds]⟩

theorem natChars_digits (n : Nat) : ∀ c ∈ natChars n, isDigitChar c = true := by
  induction n using Nat.strong_induction_on with
  | _ n ih =>
    rw [natChars]
    by_cases h : n < 10
    · simpa [h] using digitChar_isDigit h
    · intro c hc
      simp only [if_neg h, List.mem_append, List.mem_singleton] at hc
      rcases hc with hc | hc
      · exact ih (n / 10) (Nat.div_lt_self (by omega) (by omega)) c hc
      · exact hc ▸ digitChar_isDigit (Nat.mod_lt _ (by omega))

theorem digitsToNat_natChars (n : Nat) : digitsToNat (natChars n) = n := by
  induction n using Nat.strong_induction_on with
  | _ n ih =>
    rw [natChars]
    by_cases h : n < 10
    · simp [h, digitsToNat, digitVal_digitChar h]
    · have hrec := ih (n / 10) (Nat.div_lt_self (by omega) (by omega))
      simp only [if_neg h, digitsToNat, List.foldl_append, List.foldl_cons, List.foldl_nil]
      simp only [digitsToNat] at hrec
      rw [hrec, digitVal_digitChar (Nat.mod_lt _ (by omega))]
      omega

theorem natChars_head_pos (n : Nat) (hn : 1 ≤ n) :
    ∃ d ds, natChars n = d :: ds ∧ d ≠ '0' := by
  induction n using Nat.strong_induction_on with
  | _ n ih =>
    rw [natChars]
    by_cases h : n < 10
    · exact ⟨digitChar n, [], by simp [h], digitChar_ne_zero_char hn h⟩
    · obtain ⟨d, ds, hds, hd0⟩ :=
        ih (n / 10) (Nat.div_lt_self (by omega) (by omega)) (by omega)
      exact ⟨d, ds ++ [digitChar (n % 10)], by simp [h, hds], hd0⟩

theorem takeDigits_append (xs rest : List Char) (hxs : ∀ c ∈ xs, isDigitChar c = true)
    (hrest : headNotDigit rest = true) : takeDigits (xs ++ rest) = (xs, rest) := by
  induction xs with
  | nil =>
    cases rest with
    | nil => rfl
    | cons c t =>
      simp only [headNotDigit, Bool.not_eq_true'] at hrest
      simp [takeDigits, hrest]
  | cons c t iht =>
    have hc : isDigitChar c = true := hxs c (by simp)
    have ht := iht (fun x hx => hxs x (by simp [hx]))
    simp [takeDigits, hc, ht]

theorem parseNatToken_natChars (n : Nat) (rest : List Char)
    (hrest : headNotDigit rest = true) :
    parseNatToken (natChars n ++ rest) = some (n, rest) := by
  have htd := takeDigits_append (natChars n) rest (natChars_digits n) hrest
  by_cases h1 : n = 0
  · subst h1
    have h0 : natChars 0 = ['0'] := by rw [natChars]; rfl
    rw [h0] at htd ⊢
    rw [List.cons_append, List.nil_append] at htd ⊢
    have hdv : digitVal '0' = 0 := by decide
    simp [parseNatToken, htd, digitsToNat, hdv]
  · obtain ⟨d, ds, hds, hd0⟩ := natChars_head_pos n (by omega)
    have hval := digitsToNat_natChars n
    rw [hds] at htd hval ⊢
    rw [List.cons_append] at htd ⊢
    simp only [parseNatToken, htd]
    simp [hd0, hval]

theorem digit_ne_minus {c : Char} (h : isDigitChar c = true) : c ≠ '-' := by
  intro hc
  simp only [isDigitChar, Bool.and_eq_true, decide_eq_true_eq] at h
  rw [hc] at h
  have : ('-').toNat = 45 := by decide
  omega

theorem parseNumToken_numChars (n : Int) (rest : List Char)
    (hrest : headNotDigit rest = true) :
    parseNumToken (numChars n ++ rest) = some (n, rest) := by
  cases n with
  | ofNat m =>
    obtain ⟨d, ds, hds⟩ := natChars_cons m
    have hd : isDigitChar d = true := natChars_digits m d (by simp [hds])
    have hnat := parseNatToken_natChars m rest hrest
    have hnum : numChars (Int.ofNat m) = natChars m := rfl
    rw [hnum]
    rw [hds, List.cons_append] at hnat ⊢
    simp [parseNumToken, digit_ne_minus hd, hnat]
  | negSucc m =>
    have hnat := parseNatToken_natChars (m + 1) rest hrest
    have hnum : numChars (Int.negSucc m) = '-' :: natChars (m + 1) := rfl
    rw [hnum, List.cons_append]
    simp [parseNumToken, hnat, Int.negSucc_eq]

/-! ### String-literal round-trip -/

theorem hexVal_hexDigitChar {d : Nat} (h : d < 16) :
    hexVal (hexDigitChar d) = some d := by
  by_cases h10 : d < 10
  · rw [hexDigitChar, if_pos h10, hexVal]
    rw [toNat_ofNat_small (by omega)]
    rw [if_pos (by omega)]
    simp
  · rw [hexDigitChar, if_neg h10, hexVal]
    rw [toNat_ofNat_small (by omega)]
    rw [if_neg (by omega), if_pos (by omega)]
    simp
    omega

theorem parseStringBody_escChar (c : Char) (t : List Char) :
    parseStringBody (escChar c ++ t) =
      (parseStringBody t).map (fun p => (c :: p.1, p.2)) := by
  by_cases h1 : c = '"'
  · subst h1
    rw [show escChar '"' = ['\\', '"'] from rfl,
      show (['\\', '"'] ++ t : List Char) = '\\' :: '"' :: t from rfl]
    conv_lhs => unfold parseStringBody
    simp +decide [unescapeChar, List.append_eq]
  by_cases h2 : c = '\\'
  · subst h2
    rw [show escChar '\\' = ['\\', '\\'] from rfl,
      show (['\\', '\\'] ++ t : List Char) = '\\' :: '\\' :: t from rfl]
    conv_lhs => unfold parseStringBody
    simp +decide [unescapeChar, List.append_eq]
  by_cases h3 : c = '\n'
  · subst h3
    rw [show escChar '\n' = ['\\', 'n'] from rfl,
      show (['\\', 'n'] ++ t : List Char) = '\\' :: 'n' :: t from rfl]
    conv_lhs => unfold parseStringBody
    simp +decide [unescapeChar, List.append_eq]
  by_cases h4 : c = '\t'
  · subst h4
    rw [show escChar '\t' = ['\\', 't'] from rfl,
      show (['\\', 't'] ++ t : List Char) = '\\' :: 't' :: t from rfl]
    conv_lhs => unfold parseStringBody
    simp +decide [unescapeChar, List.append_eq]
  by_cases h5 : c = '\r'
  · subst h5
    rw [show escChar '\r' = ['\\', 'r'] from rfl,
      show (['\\', 'r'] ++ t : List Char) = '\\' :: 'r' :: t from rfl]
    conv_lhs => unfold parseStringBody
    simp +decide [unescapeChar, List.append_eq]
  by_cases h6 : c.toNat = 8
  · have hc : c = Char.ofNat 8 := char_eq_of_toNat (by rw [h6, toNat_ofNat_small (by omega)])
    subst hc
    rw [show escChar (Char.ofNat 8) = ['\\', 'b'] from rfl,
      show (['\\', 'b'] ++ t : List Char) = '\\' :: 'b' :: t from rfl]
    conv_lhs => unfold parseStringBody
    simp +decide [unescapeChar, List.append_eq]
  by_cases h7 : c.toNat = 12
  · have hc : c = Char.ofNat 12 := char_eq_of_toNat (by rw [h7, toNat_ofNat_small (by omega)])
    subst hc
    rw [show escChar (Char.ofNat 12) = ['\\', 'f'] from rfl,
      show (['\\', 'f'] ++ t : List Char) = '\\' :: 'f' :: t from rfl]
    conv_lhs => unfold parseStringBody
    simp +decide [unescapeChar, List.append_eq]
  by_cases h8 : c.toNat < 32
  · have hesc : escChar c =
        ['\\', 'u', '0', '0', hexDigitChar (c.toNat / 16), hexDigitChar (c.toNat % 16)] := by
      rw [escChar, if_neg h1, if_neg h2, if_neg h3, if_neg h4, if_neg h5,
        if_neg h6, if_neg h7, if_pos h8]
    rw [hesc]
    have hv1 := hexVal_hexDigitChar (d := c.toNat / 16) (by omega)
    have hv2 := hexVal_hexDigitChar (d := c.toNat % 16) (by omega)
    rw [show (['\\', 'u', '0', '0', hexDigitChar (c.toNat / 16),
          hexDigitChar (c.toNat % 16)] ++ t : List Char) =
        '\\' :: 'u' :: '0' :: '0' :: hexDigitChar (c.toNat / 16) ::
          hexDigitChar (c.toNat % 16) :: t from rfl]
    conv_lhs => unfold parseStringBody
    simp +decide only [List.append_eq, List.nil_append, List.cons_append,
      if_true, if_false]
    simp only [hv1, hv2, show hexVal '0' = some 0 from by decide]
    have hcp : ((0 * 16 + 0) * 16 + c.toNat / 16) * 16 + c.toNat % 16 = c.toNat := by omega
    rw [hcp, if_pos (Or.inl (by omega : c.toNat < 0xD800)), Char.ofNat_toNat]
  · have hesc : escChar c = [c] := by
      rw [escChar, if_neg h1, if_neg h2, if_neg h3, if_neg h4, if_neg h5,
        if_neg h6, if_neg h7, if_neg h8]
    rw [hesc]
    have hlist : ([c] ++ t : List Char) = c :: t := rfl
    rw [hlist]
    conv_lhs => unfold parseStringBody
    simp only [if_neg h1, if_neg h2, if_neg h8]

theorem parseStringBody_escape (s rest : List Char) :
    parseStringBody (escapeString s ++ '"' :: rest) = some (s, rest) := by
  induction s with
  | nil =>
    have hnil : escapeString [] = [] := rfl
    rw [hnil, List.nil_append]
    unfold parseStringBody
    simp
  | cons c t ih =>
    have he : escapeString (c :: t) = escChar c ++ escapeString t := by
      simp [escapeString]
    rw [he, List.append_assoc, parseStringBody_escChar, ih]
    rfl

/-! ### Whitespace and head-character facts -/

theorem skipWs_cons_false {c : Char} (t : List Char) (hc : isWsChar c = false) :
    skipWs (c :: t) = c :: t := by
  simp [skipWs, List.dropWhile_cons, hc]

theorem skipWs_cons_true {c : Char} (t : List Char) (hc : isWsChar c = true) :
    skipWs (c :: t) = skipWs t := by
  simp [skipWs, List.dropWhile_cons, hc]

theorem digit_not_ws {c : Char} (h : isDigitChar c = true) : isWsChar c = false := by
  simp only [isWsChar, Bool.or_eq_false_iff, decide_eq_false_iff_not]
  refine ⟨⟨⟨?_, ?_⟩, ?_⟩, ?_⟩ <;>
    · intro hc
      subst hc
      exact absurd h (by decide)

theorem digit_ne {c : Char} (h : isDigitChar c = true) {d : Char}
    (hd : d.toNat < 48 ∨ 57 < d.toNat) : c ≠ d := by
  intro hc
  simp only [isDigitChar, Bool.and_eq_true, decide_eq_true_eq] at h
  subst hc
  omega

theorem numChars_cons (n : Int) :
    ∃ d ds, numChars n = d :: ds ∧ (d = '-' || isDigitChar d) = true ∧
      isWsChar d = false ∧ d ≠ ']' := by
  cases n with
  | ofNat m =>
    obtain ⟨d, ds, hds⟩ := natChars_cons m
    have hd : isDigitChar d = true := natChars_digits m d (by simp [hds])
    exact ⟨d, ds, hds, by simp [hd], digit_not_ws hd, digit_ne hd (by decide)⟩
  | negSucc m =>
    exact ⟨'-', natChars (m + 1), rfl, by decide, by decide, by decide⟩

theorem dumps_cons (v : Json) :
    ∃ c t, dumps v = c :: t ∧ isWsChar c = false ∧ c ≠ ']' := by
  cases v with
  | null => exact ⟨'n', _, rfl, by decide, by decide⟩
  | bool b =>
    cases b with
    | true => exact ⟨'t', _, rfl, by decide, by decide⟩
    | false => exact ⟨'f', _, rfl, by decide, by decide⟩
  | num n =>
    obtain ⟨d, ds, hds, _, hws, hbr⟩ := numChars_cons n
    exact ⟨d, ds, by simp [dumps, hds], hws, hbr⟩
  | str s => exact ⟨'"', _, rfl, by decide, by decide⟩
  | arr es => exact ⟨'[', _, rfl, by decide, by decide⟩
  | obj ms => exact ⟨'{', _, rfl, by decide, by decide⟩

theorem parseValue_ws (f : Nat) {c : Char} (s : List Char) (hc : isWsChar c = true) :
    parseValue (f + 1) (c :: s) = parseValue (f + 1) s := by
  conv_lhs => unfold parseValue
  conv_rhs => unfold parseValue
  rw [skipWs_cons_true s hc]

theorem parseElems_ws (g : Nat) {c : Char} (s : List Char) (hc : isWsChar c = true) :
    parseElems (g + 2) (c :: s) = parseElems (g + 2) s := by
  conv_lhs => unfold parseElems
  conv_rhs => unfold parseElems
  rw [parseValue_ws g s hc]

theorem parseMembers_ws (f : Nat) {c : Char} (s : List Char) (hc : isWsChar c = true) :
    parseMembers (f + 1) (c :: s) = parseMembers (f + 1) s := by
  conv_lhs => unfold parseMembers
  conv_rhs => unfold parseMembers
  rw [skipWs_cons_true s hc]

/-! ### Fuel bounds for the parser -/

theorem szV_pos (v : Json) : 1 ≤ szV v := by
  cases v <;> simp [szV]

theorem headNotDigit_cons {c : Char} (t : List Char) (hc : isDigitChar c = false) :
    headNotDigit (c :: t) = true := by
  simp [headNotDigit, hc]

theorem dumpsElems_cons_append (x : Json) (xs : List Json) :
    ∃ T, dumpsElems (x :: xs) = dumps x ++ T := by
  cases xs with
  | nil => exact ⟨[], by simp [dumpsElems]⟩
  | cons y ys => exact ⟨',' :: ' ' :: dumpsElems (y :: ys), by simp [dumpsElems]⟩

theorem dumpsMembers_cons (k : List Char) (v : Json) (ms : List (List Char × Json)) :
    ∃ Y, dumpsMembers ((k, v) :: ms) = '"' :: Y := by
  cases ms with
  | nil =>
    exact ⟨escapeString k ++ '"' :: ':' :: ' ' :: dumps v, by simp [dumpsMembers]⟩
  | cons m2 ms2 =>
    exact ⟨escapeString k ++ '"' :: ':' :: ' ' ::
      (dumps v ++ ',' :: ' ' :: dumpsMembers (m2 :: ms2)),
      by simp [dumpsMembers, List.append_assoc]⟩

/-! ### The round-trip: parsing a serialized value yields the value back -/

mutual

theorem parseValue_dumps (v : Json) (fuel : Nat) (rest : List Char)
    (hf : szV v ≤ fuel) (hrest : headNotDigit rest = true) :
    parseValue fuel (dumps v ++ rest) = some (v, rest) := by
  have hpos : 1 ≤ szV v := szV_pos v
  obtain ⟨f, rfl⟩ : ∃ f, fuel = f + 1 := ⟨fuel - 1, by omega⟩
  cases v with
  | null =>
    rw [show dumps Json.null ++ rest = 'n' :: 'u' :: 'l' :: 'l' :: rest from rfl]
    conv_lhs => unfold parseValue
    rw [skipWs_cons_false _ (by decide)]
    simp +decide [dropPref]
  | bool b =>
    cases b with
    | true =>
      rw [show dumps (Json.bool true) ++ rest = 't' :: 'r' :: 'u' :: 'e' :: rest from rfl]
      conv_lhs => unfold parseValue
      rw [skipWs_cons_false _ (by decide)]
      simp +decide [dropPref]
    | false =>
      rw [show dumps (Json.bool false) ++ rest =
        'f' :: 'a' :: 'l' :: 's' :: 'e' :: rest from rfl]
      conv_lhs => unfold parseValue
      rw [skipWs_cons_false _ (by decide)]
      simp +decide [dropPref]
  | num n =>
    obtain ⟨d, ds, hds, hcond, hws, _⟩ := numChars_cons n
    have hnum := parseNumToken_numChars n rest hrest
    have hdd : dumps (Json.num n) = numChars n := by simp [dumps]
    rw [hdd, hds, List.cons_append]
    rw [hds, List.cons_append] at hnum
    conv_lhs => unfold parseValue
    rw [skipWs_cons_false _ hws]
    simp only [hcond, if_true, hnum]
    rfl
  | str s =>
    have hdd : dumps (Json.str s) ++ rest = '"' :: (escapeString s ++ '"' :: rest) := by
      simp [dumps, List.append_assoc]
    rw [hdd]
    conv_lhs => unfold parseValue
    rw [skipWs_cons_false _ (by decide)]
    simp +decide only []
    rw [parseStringBody_escape]
    rfl
  | arr es =>
    have hdd : dumps (Json.arr es) ++ rest = '[' :: (dumpsElems es ++ ']' :: rest) := by
      simp [dumps, List.append_assoc]
    rw [hdd]
    conv_lhs => unfold parseValue
    rw [skipWs_cons_false _ (by decide)]
    simp +decide only []
    cases es with
    | nil =>
      rw [show dumpsElems ([] : List Json) ++ ']' :: rest = ']' :: rest from rfl]
      rw [skipWs_cons_false _ (by decide)]
      simp +decide
    | cons x xs =>
      obtain ⟨T, hT⟩ := dumpsElems_cons_append x xs
      obtain ⟨c0, t0, hc0, hws0, hbr0⟩ := dumps_cons x
      have hshape : dumpsElems (x :: xs) ++ ']' :: rest =
          c0 :: (t0 ++ (T ++ ']' :: rest)) := by
        rw [hT, hc0]
        simp [List.append_assoc]
      rw [hshape, skipWs_cons_false _ hws0]
      simp only [if_neg hbr0]
      rw [← hshape]
      have hsz : szL (x :: xs) ≤ f := by
        simp only [szV] at hf
        omega
      rw [parseElems_dumps (x :: xs) (by simp) f rest hsz]
      simp
  | obj ms =>
    have hdd : dumps (Json.obj ms) ++ rest = '{' :: (dumpsMembers ms ++ '}' :: rest) := by
      simp [dumps, List.append_assoc]
    rw [hdd]
    conv_lhs => unfold parseValue
    rw [skipWs_cons_false _ (by decide)]
    simp +decide only []
    cases ms with
    | nil =>
      rw [show dumpsMembers ([] : List (List Char × Json)) ++ '}' :: rest =
        '}' :: rest from rfl]
      rw [skipWs_cons_false _ (by decide)]
      simp +decide
    | cons m ms2 =>
      obtain ⟨k, v0⟩ := m
      obtain ⟨Y, hY⟩ := dumpsMembers_cons k v0 ms2
      have hshape : dumpsMembers ((k, v0) :: ms2) ++ '}' :: rest =
          '"' :: (Y ++ '}' :: rest) := by
        rw [hY]
        simp
      rw [hshape, skipWs_cons_false _ (by decide)]
      simp +decide only []
      rw [← hshape]
      have hsz : szO ((k, v0) :: ms2) ≤ f := by
        simp only [szV] at hf
        omega
      rw [parseMembers_dumps ((k, v0) :: ms2) (by simp) f rest hsz]
      simp

theorem parseElems_dumps (es : List Json) (hne : es ≠ []) (fuel : Nat) (rest : List Char)
    (hf : szL es ≤ fuel) :
    parseElems fuel (dumpsElems es ++ ']' :: rest) = some (es, rest) := by
  match es, hne with
  | v :: vs, _ =>
    have hsz : 1 + szV v + szL vs ≤ fuel := by
      simpa [szL] using hf
    obtain ⟨f, rfl⟩ : ∃ f, fuel = f + 1 := ⟨fuel - 1, by omega⟩
    conv_lhs => unfold parseElems
    cases vs with
    | nil =>
      have hpv := parseValue_dumps v f (']' :: rest) (by omega)
        (headNotDigit_cons _ (by decide))
      rw [show dumpsElems [v] ++ ']' :: rest = dumps v ++ ']' :: rest from by
        simp [dumpsElems]]
      rw [hpv]
      simp +decide only [if_true, if_false]
      rw [skipWs_cons_false _ (by decide)]
      simp +decide
    | cons v2 vs2 =>
      have hde : dumpsElems (v :: v2 :: vs2) ++ ']' :: rest =
          dumps v ++ (',' :: ' ' :: (dumpsElems (v2 :: vs2) ++ ']' :: rest)) := by
        simp [dumpsElems, List.append_assoc]
      rw [hde]
      have hpv := parseValue_dumps v f
        (',' :: ' ' :: (dumpsElems (v2 :: vs2) ++ ']' :: rest)) (by omega)
        (headNotDigit_cons _ (by decide))
      rw [hpv]
      simp +decide only [if_true, if_false]
      rw [skipWs_cons_false _ (by decide)]
      simp +decide only [if_true, if_false]
      have hvs2 : 1 ≤ szL (v2 :: vs2) := by simp [szL]; omega
      obtain ⟨g, rfl⟩ : ∃ g, f = g + 2 := by
        have h2 : 2 ≤ szL (v2 :: vs2) := by
          have := szV_pos v2
          simp [szL]
          omega
        exact ⟨f - 2, by omega⟩
      rw [parseElems_ws g _ (by decide)]
      rw [parseElems_dumps (v2 :: vs2) (by simp) (g + 2) rest (by omega)]

theorem parseMembers_dumps (ms : List (List Char × Json)) (hne : ms ≠ [])
    (fuel : Nat) (rest : List Char) (hf : szO ms ≤ fuel) :
    parseMembers fuel (dumpsMembers ms ++ '}' :: rest) = some (ms, rest) := by
  match ms, hne with
  | (k, v) :: ms2, _ =>
    have hsz : 1 + szV v + szO ms2 ≤ fuel := by
      simpa [szO] using hf
    obtain ⟨f, rfl⟩ : ∃ f, fuel = f + 1 := ⟨fuel - 1, by omega⟩
    obtain ⟨f2, rfl⟩ : ∃ f2, f = f2 + 1 := by
      have := szV_pos v
      exact ⟨f - 1, by omega⟩
    conv_lhs => unfold parseMembers
    cases ms2 with
    | nil =>
      have hdm : dumpsMembers [(k, v)] ++ '}' :: rest =
          '"' :: (escapeString k ++ '"' :: (':' :: ' ' :: (dumps v ++ '}' :: rest))) := by
        simp [dumpsMembers, List.append_assoc]
      rw [hdm, skipWs_cons_false _ (by decide)]
      simp +decide only []
      rw [parseStringBody_escape]
      simp +decide only []
      rw [skipWs_cons_false _ (by decide)]
      simp +decide only []
      rw [parseValue_ws f2 _ (by decide)]
      rw [parseValue_dumps v (f2 + 1) ('}' :: rest) (by omega)
        (headNotDigit_cons _ (by decide))]
      simp +decide only [if_true, if_false]
      rw [skipWs_cons_false _ (by decide)]
      simp +decide
    | cons m2 ms3 =>
      have hdm : dumpsMembers ((k, v) :: m2 :: ms3) ++ '}' :: rest =
          '"' :: (escapeString k ++ '"' :: (':' :: ' ' ::
            (dumps v ++ (',' :: ' ' :: (dumpsMembers (m2 :: ms3) ++ '}' :: rest))))) := by
        simp [dumpsMembers, List.append_assoc]
      rw [hdm, skipWs_cons_false _ (by decide)]
      simp +decide only []
      rw [parseStringBody_escape]
      simp +decide only []
      rw [skipWs_cons_false _ (by decide)]
      simp +decide only []
      rw [parseValue_ws f2 _ (by decide)]
      rw [parseValue_dumps v (f2 + 1) _ (by omega) (headNotDigit_cons _ (by decide))]
      simp +decide only [if_true, if_false]
      rw [skipWs_cons_false _ (by decide)]
      simp +decide only [if_true, if_false]
      rw [parseMembers_ws f2 _ (by decide)]
      rw [parseMembers_dumps (m2 :: ms3) (by simp) (f2 + 1) rest (by omega)]

end

/-! ### `loads` always has enough fuel for `dumps` output -/

mutual

theorem szV_le_len (v : Json) : szV v ≤ (dumps v).length + 1 := by
  cases v with
  | null => simp [szV, dumps]
  | bool b => cases b <;> simp [szV, dumps]
  | num n => simp [szV, dumps]
  | str s => simp [szV, dumps]
  | arr es =>
    have h := szL_le_len es
    simp only [szV, dumps, List.length_cons, List.length_append, List.length_singleton]
    omega
  | obj ms =>
    have h := szO_le_len ms
    simp only [szV, dumps, List.length_cons, List.length_append, List.length_singleton]
    omega

theorem szL_le_len (es : List Json) : szL es ≤ (dumpsElems es).length + 2 := by
  cases es with
  | nil => simp [szL]
  | cons x xs =>
    cases xs with
    | nil =>
      have h := szV_le_len x
      simp only [szL, dumpsElems]
      omega
    | cons x2 xs2 =>
      have h1 := szV_le_len x
      have h2 := szL_le_len (x2 :: xs2)
      simp only [szL] at h2 ⊢
      simp only [dumpsElems, List.length_append, List.length_cons] at h2 ⊢
      omega

theorem szO_le_len (ms : List (List Char × Json)) :
    szO ms ≤ (dumpsMembers ms).length + 2 := by
  cases ms with
  | nil => simp [szO]
  | cons m ms2 =>
    obtain ⟨k, v⟩ := m
    cases ms2 with
    | nil =>
      have h := szV_le_len v
      simp only [szO, dumpsMembers, List.length_cons, List.length_append]
      omega
    | cons m2 ms3 =>
      have h1 := szV_le_len v
      have h2 := szO_le_len (m2 :: ms3)
      simp only [szO] at h2 ⊢
      simp only [dumpsMembers, List.length_cons, List.length_append] at h2 ⊢
      omega

end

/-- The central algebraic fact: re-parsing a serialized JSON value yields
the value back. -/
theorem loads_dumps (v : Json) : loads (dumps v) = some v := by
  unfold loads
  have h := parseValue_dumps v ((dumps v).length + 1) []
    (le_trans (szV_le_len v) (by omega)) rfl
  rw [List.append_nil] at h
  rw [h]
  rfl

/-! ### UTF-8 round-trips -/

theorem encodeUtf8_cons (c : Char) (s : List Char) :
    encodeUtf8 (c :: s) = encodeCp c.toNat ++ encodeUtf8 s := by
  simp [encodeUtf8]

theorem decode_encodeCp {n : Nat} (hval : n.isValidChar) (t : Bytes) :
    decodeUtf8 (encodeCp n ++ t) = (decodeUtf8 t).map (fun s => Char.ofNat n :: s) := by
  have hv : n < 0xD800 ∨ (0xDFFF < n ∧ n < 0x110000) := hval
  by_cases h1 : n < 0x80
  · rw [show encodeCp n = [n] from by rw [encodeCp, if_pos h1]]
    rw [show ([n] ++ t : Bytes) = n :: t from rfl]
    conv_lhs => unfold decodeUtf8
    rw [if_pos h1]
  · by_cases h2 : n < 0x800
    · rw [show encodeCp n = [0xC0 + n / 0x40, 0x80 + n % 0x40] from by
        rw [encodeCp, if_neg h1, if_pos h2]]
      rw [show ([0xC0 + n / 0x40, 0x80 + n % 0x40] ++ t : Bytes) =
        (0xC0 + n / 0x40) :: (0x80 + n % 0x40) :: t from rfl]
      conv_lhs => unfold decodeUtf8
      rw [if_neg (by omega), if_neg (by omega), if_pos (by omega)]
      conv_lhs => unfold decodeUtf8Two
      have hb1 : isCont (0x80 + n % 0x40) = true := by
        simp only [isCont, Bool.and_eq_true, decide_eq_true_eq]
        omega
      simp only [hb1, if_true]
      have harith : (0xC0 + n / 0x40 - 0xC0) * 0x40 + (0x80 + n % 0x40 - 0x80) = n := by
        omega
      rw [harith]
    · by_cases h3 : n < 0x10000
      · rw [show encodeCp n =
          [0xE0 + n / 0x1000, 0x80 + n / 0x40 % 0x40, 0x80 + n % 0x40] from by
          rw [encodeCp, if_neg h1, if_neg h2, if_pos h3]]
        rw [show ([0xE0 + n / 0x1000, 0x80 + n / 0x40 % 0x40, 0x80 + n % 0x40] ++ t :
          Bytes) = (0xE0 + n / 0x1000) :: (0x80 + n / 0x40 % 0x40) ::
            (0x80 + n % 0x40) :: t from rfl]
        conv_lhs => unfold decodeUtf8
        rw [if_neg (by omega), if_neg (by omega), if_neg (by omega), if_pos (by omega)]
        conv_lhs => unfold decodeUtf8Three
        have hb : (isCont (0x80 + n / 0x40 % 0x40) && isCont (0x80 + n % 0x40)) = true := by
          simp only [isCont, Bool.and_eq_true, decide_eq_true_eq]
          omega
        simp only [hb, if_true]
        have harith : (0xE0 + n / 0x1000 - 0xE0) * 0x1000 +
            (0x80 + n / 0x40 % 0x40 - 0x80) * 0x40 + (0x80 + n % 0x40 - 0x80) = n := by
          omega
        rw [harith, if_pos (by omega)]
      · rw [show encodeCp n = [0xF0 + n / 0x40000, 0x80 + n / 0x1000 % 0x40,
          0x80 + n / 0x40 % 0x40, 0x80 + n % 0x40] from by
          rw [encodeCp, if_neg h1, if_neg h2, if_neg h3]]
        rw [show ([0xF0 + n / 0x40000, 0x80 + n / 0x1000 % 0x40,
          0x80 + n / 0x40 % 0x40, 0x80 + n % 0x40] ++ t : Bytes) =
          (0xF0 + n / 0x40000) :: (0x80 + n / 0x1000 % 0x40) ::
            (0x80 + n / 0x40 % 0x40) :: (0x80 + n % 0x40) :: t from rfl]
        conv_lhs => unfold decodeUtf8
        rw [if_neg (by omega), if_neg (by omega), if_neg (by omega), if_neg (by omega),
          if_pos (by omega)]
        conv_lhs => unfold decodeUtf8Four
        have hb : (isCont (0x80 + n / 0x1000 % 0x40) &&
            isCont (0x80 + n / 0x40 % 0x40) && isCont (0x80 + n % 0x40)) = true := by
          simp only [isCont, Bool.and_eq_true, decide_eq_true_eq]
          omega
        simp only [hb, if_true]
        have harith : (0xF0 + n / 0x40000 - 0xF0) * 0x40000 +
            (0x80 + n / 0x1000 % 0x40 - 0x80) * 0x1000 +
            (0x80 + n / 0x40 % 0x40 - 0x80) * 0x40 + (0x80 + n % 0x40 - 0x80) = n := by
          omega
        rw [harith]
        rw [if_pos (show 0x10000 ≤ n ∧ n < 0x110000 by omega)]

/-- Encoding a string and decoding it back is the identity. -/
theorem decode_encodeUtf8 (s : List Char) : decodeUtf8 (encodeUtf8 s) = some s := by
  induction s with
  | nil => rfl
  | cons c s2 ih =>
    rw [encodeUtf8_cons, decode_encodeCp (char_toNat_valid c), ih]
    simp [Char.ofNat_toNat]

theorem decodeUtf8_nil : decodeUtf8 [] = some [] := by
  unfold decodeUtf8
  rfl

theorem encodeCp_two {b0 b1 : Nat} (hb0 : 0xC2 ≤ b0) (hb0' : b0 < 0xE0)
    (hb1 : isCont b1 = true) :
    encodeCp ((b0 - 0xC0) * 0x40 + (b1 - 0x80)) = [b0, b1] := by
  simp only [isCont, Bool.and_eq_true, decide_eq_true_eq] at hb1
  rw [encodeCp, if_neg (by omega), if_pos (by omega)]
  simp only [List.cons.injEq, and_true]
  omega

theorem encodeCp_three {b0 b1 b2 : Nat} (hb0 : 0xE0 ≤ b0) (hb0' : b0 < 0xF0)
    (hb1 : isCont b1 = true) (hb2 : isCont b2 = true)
    (hn : 0x800 ≤ (b0 - 0xE0) * 0x1000 + (b1 - 0x80) * 0x40 + (b2 - 0x80)) :
    encodeCp ((b0 - 0xE0) * 0x1000 + (b1 - 0x80) * 0x40 + (b2 - 0x80)) =
      [b0, b1, b2] := by
  simp only [isCont, Bool.and_eq_true, decide_eq_true_eq] at hb1 hb2
  rw [encodeCp, if_neg (by omega), if_neg (by omega), if_pos (by omega)]
  simp only [List.cons.injEq, and_true]
  omega

theorem encodeCp_four {b0 b1 b2 b3 : Nat} (hb0 : 0xF0 ≤ b0) (hb0' : b0 < 0xF5)
    (hb1 : isCont b1 = true) (hb2 : isCont b2 = true) (hb3 : isCont b3 = true)
    (hn : 0x10000 ≤ (b0 - 0xF0) * 0x40000 + (b1 - 0x80) * 0x1000 +
      (b2 - 0x80) * 0x40 + (b3 - 0x80))
    (hm : (b0 - 0xF0) * 0x40000 + (b1 - 0x80) * 0x1000 +
      (b2 - 0x80) * 0x40 + (b3 - 0x80) < 0x110000) :
    encodeCp ((b0 - 0xF0) * 0x40000 + (b1 - 0x80) * 0x1000 +
      (b2 - 0x80) * 0x40 + (b3 - 0x80)) = [b0, b1, b2, b3] := by
  simp only [isCont, Bool.and_eq_true, decide_eq_true_eq] at hb1 hb2 hb3
  rw [encodeCp, if_neg (by omega), if_neg (by omega), if_neg (by omega)]
  simp only [List.cons.injEq, and_true]
  omega

theorem encode_decode_aux (N : Nat) : ∀ b : Bytes, b.length ≤ N →
    ∀ s, decodeUtf8 b = some s → encodeUtf8 s = b := by
  induction N with
  | zero =>
    intro b hb s h
    match b with
    | [] =>
      rw [decodeUtf8_nil] at h
      obtain rfl : ([] : List Char) = s := Option.some.inj h
      rfl
  | succ N ih =>
    intro b hb s h
    match b with
    | [] =>
      rw [decodeUtf8_nil] at h
      obtain rfl : ([] : List Char) = s := Option.some.inj h
      rfl
    | b0 :: t =>
      unfold decodeUtf8 at h
      by_cases h1 : b0 < 0x80
      · rw [if_pos h1] at h
        cases hd : decodeUtf8 t with
        | none => rw [hd] at h; exact absurd h (by simp)
        | some s2 =>
          rw [hd] at h
          simp only [Option.map_some'] at h
          obtain rfl : Char.ofNat b0 :: s2 = s := Option.some.inj h
          rw [encodeUtf8_cons, toNat_ofNat_valid (Or.inl (by omega))]
          rw [show encodeCp b0 = [b0] from by rw [encodeCp, if_pos h1]]
          rw [ih t (by simp only [List.length_cons] at hb; omega) s2 hd]
          rfl
      · rw [if_neg h1] at h
        by_cases h2 : b0 < 0xC2
        · rw [if_pos h2] at h
          exact absurd h (by simp)
        · rw [if_neg h2] at h
          by_cases h3 : b0 < 0xE0
          · rw [if_pos h3] at h
            match t with
            | [] =>
              rw [show decodeUtf8Two b0 [] = none from by unfold decodeUtf8Two; rfl] at h
              exact absurd h (by simp)
            | b1 :: t1 =>
              unfold decodeUtf8Two at h
              cases hcb : isCont b1 with
              | false => rw [hcb] at h; exact absurd h (by simp)
              | true =>
                rw [hcb, if_pos rfl] at h
                cases hd : decodeUtf8 t1 with
                | none => rw [hd] at h; exact absurd h (by simp)
                | some s2 =>
                  rw [hd] at h
                  simp only [Option.map_some'] at h
                  obtain rfl := Option.some.inj h
                  have hb1 := hcb
                  simp only [isCont, Bool.and_eq_true, decide_eq_true_eq] at hb1
                  rw [encodeUtf8_cons, toNat_ofNat_valid (Or.inl (by omega))]
                  rw [encodeCp_two (by omega) h3 hcb]
                  rw [ih t1 (by simp only [List.length_cons] at hb; omega) s2 hd]
                  rfl
          · rw [if_neg h3] at h
            by_cases h4 : b0 < 0xF0
            · rw [if_pos h4] at h
              match t with
              | [] =>
                rw [show decodeUtf8Three b0 [] = none from by
                  unfold decodeUtf8Three
                  rfl] at h
                exact absurd h (by simp)
              | [b1] =>
                rw [show decodeUtf8Three b0 [b1] = none from by
                  unfold decodeUtf8Three
                  rfl] at h
                exact absurd h (by simp)
              | b1 :: b2 :: t2 =>
                unfold decodeUtf8Three at h
                cases hcb : (isCont b1 && isCont b2) with
                | false => rw [hcb] at h; exact absurd h (by simp)
                | true =>
                  rw [hcb, if_pos rfl] at h
                  by_cases hr : 0x800 ≤ (b0 - 0xE0) * 0x1000 + (b1 - 0x80) * 0x40 +
                      (b2 - 0x80) ∧ ((b0 - 0xE0) * 0x1000 + (b1 - 0x80) * 0x40 +
                        (b2 - 0x80) < 0xD800 ∨
                       0xDFFF < (b0 - 0xE0) * 0x1000 + (b1 - 0x80) * 0x40 + (b2 - 0x80))
                  · rw [if_pos hr] at h
                    cases hd : decodeUtf8 t2 with
                    | none => rw [hd] at h; exact absurd h (by simp)
                    | some s2 =>
                      rw [hd] at h
                      simp only [Option.map_some'] at h
                      obtain rfl := Option.some.inj h
                      simp only [Bool.and_eq_true] at hcb
                      have hbb1 := hcb.1
                      have hbb2 := hcb.2
                      simp only [isCont, Bool.and_eq_true, decide_eq_true_eq] at hbb1 hbb2
                      have hval : ((b0 - 0xE0) * 0x1000 + (b1 - 0x80) * 0x40 +
                          (b2 - 0x80)).isValidChar := by
                        rcases hr.2 with hlt | hgt
                        · exact Or.inl hlt
                        · exact Or.inr ⟨hgt, by omega⟩
                      rw [encodeUtf8_cons, toNat_ofNat_valid hval]
                      rw [encodeCp_three (by omega) h4 hcb.1 hcb.2 hr.1]
                      rw [ih t2 (by simp only [List.length_cons] at hb; omega) s2 hd]
                      rfl
                  · rw [if_neg hr] at h
                    exact absurd h (by simp)
            · by_cases h5 : b0 < 0xF5
              · rw [if_neg h4, if_pos h5] at h
                match t with
                | [] =>
                  rw [show decodeUtf8Four b0 [] = none from by
                    unfold decodeUtf8Four
                    rfl] at h
                  exact absurd h (by simp)
                | [b1] =>
                  rw [show decodeUtf8Four b0 [b1] = none from by
                    unfold decodeUtf8Four
                    rfl] at h
                  exact absurd h (by simp)
                | [b1, b2] =>
                  rw [show decodeUtf8Four b0 [b1, b2] = none from by
                    unfold decodeUtf8Four
                    rfl] at h
                  exact absurd h (by simp)
                | b1 :: b2 :: b3 :: t3 =>
                  unfold decodeUtf8Four at h
                  cases hcb : (isCont b1 && isCont b2 && isCont b3) with
                  | false => rw [hcb] at h; exact absurd h (by simp)
                  | true =>
                    rw [hcb, if_pos rfl] at h
                    by_cases hr : 0x10000 ≤ (b0 - 0xF0) * 0x40000 +
                        (b1 - 0x80) * 0x1000 + (b2 - 0x80) * 0x40 + (b3 - 0x80) ∧
                        (b0 - 0xF0) * 0x40000 + (b1 - 0x80) * 0x1000 +
                          (b2 - 0x80) * 0x40 + (b3 - 0x80) < 0x110000
                    · rw [if_pos hr] at h
                      cases hd : decodeUtf8 t3 with
                      | none => rw [hd] at h; exact absurd h (by simp)
                      | some s2 =>
                        rw [hd] at h
                        simp only [Option.map_some'] at h
                        obtain rfl := Option.some.inj h
                        simp only [Bool.and_eq_true] at hcb
                        have hval : ((b0 - 0xF0) * 0x40000 + (b1 - 0x80) * 0x1000 +
                            (b2 - 0x80) * 0x40 + (b3 - 0x80)).isValidChar :=
                          Or.inr ⟨by omega, hr.2⟩
                        rw [encodeUtf8_cons, toNat_ofNat_valid hval]
                        rw [encodeCp_four (by omega) h5 hcb.1.1 hcb.1.2 hcb.2 hr.1 hr.2]
                        rw [ih t3 (by simp only [List.length_cons] at hb; omega) s2 hd]
                        rfl
                    · rw [if_neg hr] at h
                      exact absurd h (by simp)
              · rw [if_neg h4, if_neg h5] at h
                exact absurd h (by simp)

/-- Decoding bytes and re-encoding the result is the identity: the raw
forwarding mode transmits exactly the inbound bytes. -/
theorem encode_decodeUtf8 {b : Bytes} {s : List Char} (h : decodeUtf8 b = some s) :
    encodeUtf8 s = b :=
  encode_decode_aux b.length b le_rfl s h

/-! ### Facts about the handler -/

theorem isNull_iff (v : Json) : v.isNull = true ↔ v = Json.null := by
  cases v <;> simp [Json.isNull]

theorem loads_nil : loads [] = none := rfl

/-! ### Claim theorems -/

/-- C1.  For every POST to `/v1/chat/completions` whose body is valid JSON
(with the credential set), exactly one upstream POST is issued and the
transmitted payload, when parsed as JSON, is structurally equal to the
original inbound JSON value (round-trip through parse, re-serialize,
forward). -/
theorem c1_valid_json_roundtrip (key : List Char) (hkey : key ≠ [])
    (contentLength : Nat) (rfileData : Bytes) (u : UpstreamResult)
    (t : List Char) (v : Json)
    (hdec : decodeUtf8 (readBodyBytes contentLength rfileData) = some t)
    (hjson : loads t = some v) :
    upstreamCallCount (doPOST (some key) chatPath contentLength rfileData u) = 1 ∧
    ∃ ob, (doPOST (some key) chatPath contentLength rfileData u).sent = some ob ∧
      loadsBytes ob.body = some v := by
  rw [readBodyBytes] at hdec
  unfold doPOST
  rw [if_neg (by simp)]
  simp only []
  rw [if_neg hkey]
  by_cases hBe : (if 0 < contentLength then rfileData.take contentLength else []) = []
  · rw [hBe, decodeUtf8_nil] at hdec
    obtain rfl := Option.some.inj hdec
    rw [loads_nil] at hjson
    exact absurd hjson (by simp)
  · rw [if_neg hBe, hdec]
    have ht : t ≠ [] := by
      rintro rfl
      rw [loads_nil] at hjson
      exact Option.noConfusion hjson
    simp only []
    rw [if_neg ht, hjson]
    simp only []
    cases hvn : v.isNull with
    | true =>
      obtain rfl : v = Json.null := (isNull_iff v).mp hvn
      rw [show (if true = true then none else some Json.null) =
        (none : Option Json) from rfl]
      simp only []
      cases u with
      | exn detail =>
        refine ⟨rfl, ⟨_, rfl, ?_⟩⟩
        simp [loadsBytes, decode_encodeUtf8, hjson]
      | ok resp =>
        simp only []
        split
        · split
          · exact ⟨rfl, ⟨_, rfl, by simp [loadsBytes, decode_encodeUtf8, hjson]⟩⟩
          · exact ⟨rfl, ⟨_, rfl, by simp [loadsBytes, decode_encodeUtf8, hjson]⟩⟩
        · exact ⟨rfl, ⟨_, rfl, by simp [loadsBytes, decode_encodeUtf8, hjson]⟩⟩
    | false =>
      rw [show (if false = true then none else some v) = some v from rfl]
      simp only []
      cases u with
      | exn detail =>
        refine ⟨rfl, ⟨_, rfl, ?_⟩⟩
        simp [loadsBytes, decode_encodeUtf8, loads_dumps]
      | ok resp =>
        simp only []
        split
        · split
          · exact ⟨rfl, ⟨_, rfl, by simp [loadsBytes, decode_encodeUtf8, loads_dumps]⟩⟩
          · exact ⟨rfl, ⟨_, rfl, by simp [loadsBytes, decode_encodeUtf8, loads_dumps]⟩⟩
        · exact ⟨rfl, ⟨_, rfl, by simp [loadsBytes, decode_encodeUtf8, loads_dumps]⟩⟩

/-- Witness for C1 at a concrete input: body `{"a": 1}`. -/
theorem c1_valid_json_roundtrip_witness :
    upstreamCallCount (doPOST (some ['k']) chatPath 8
      (encodeUtf8 ['{', '"', 'a', '"', ':', ' ', '1', '}'])
      (UpstreamResult.exn [])) = 1 ∧
    ∃ ob, (doPOST (some ['k']) chatPath 8
      (encodeUtf8 ['{', '"', 'a', '"', ':', ' ', '1', '}'])
      (UpstreamResult.exn [])).sent = some ob ∧
      loadsBytes ob.body = some (Json.obj [(['a'], Json.num 1)]) :=
  c1_valid_json_roundtrip ['k'] (by decide) 8
    (encodeUtf8 ['{', '"', 'a', '"', ':', ' ', '1', '}']) (UpstreamResult.exn [])
    ['{', '"', 'a', '"', ':', ' ', '1', '}'] (Json.obj [(['a'], Json.num 1)])
    (by rfl) (by rfl)

/-- A nonempty byte string never decodes to the empty string (each success
branch of the decoder produces at least one character). -/
theorem decodeUtf8Two_ne_nil {b0 : Nat} {tl : Bytes} {s : List Char}
    (h : decodeUtf8Two b0 tl = some s) : s ≠ [] := by
  match tl with
  | [] =>
    rw [show decodeUtf8Two b0 [] = none from by unfold decodeUtf8Two; rfl] at h
    exact absurd h (by simp)
  | b1 :: t =>
    unfold decodeUtf8Two at h
    split at h
    · obtain ⟨a, ha, hs⟩ := Option.map_eq_some'.mp h
      subst hs
      simp
    · exact absurd h (by simp)

theorem decodeUtf8Three_ne_nil {b0 : Nat} {tl : Bytes} {s : List Char}
    (h : decodeUtf8Three b0 tl = some s) : s ≠ [] := by
  unfold decodeUtf8Three at h
  split at h
  · exact absurd h (by simp)
  · exact absurd h (by simp)
  · split at h
    · dsimp only at h
      split at h
      · obtain ⟨a, ha, hs⟩ := Option.map_eq_some'.mp h
        subst hs
        simp
      · exact absurd h (by simp)
    · exact absurd h (by simp)

theorem decodeUtf8Four_ne_nil {b0 : Nat} {tl : Bytes} {s : List Char}
    (h : decodeUtf8Four b0 tl = some s) : s ≠ [] := by
  unfold decodeUtf8Four at h
  split at h
  · exact absurd h (by simp)
  · exact absurd h (by simp)
  · exact absurd h (by simp)
  · split at h
    · dsimp only at h
      split at h
      · obtain ⟨a, ha, hs⟩ := Option.map_eq_some'.mp h
        subst hs
        simp
      · exact absurd h (by simp)
    · exact absurd h (by simp)

theorem decodeUtf8_ne_nil {b : Bytes} (hb : b ≠ []) {s : List Char}
    (h : decodeUtf8 b = some s) : s ≠ [] := by
  match b with
  | [] => exact absurd rfl hb
  | b0 :: t =>
    unfold decodeUtf8 at h
    by_cases h1 : b0 < 0x80
    · rw [if_pos h1] at h
      obtain ⟨a, ha, hs⟩ := Option.map_eq_some'.mp h
      subst hs
      simp
    · rw [if_neg h1] at h
      by_cases h2 : b0 < 0xC2
      · rw [if_pos h2] at h
        exact absurd h (by simp)
      · rw [if_neg h2] at h
        by_cases h3 : b0 < 0xE0
        · rw [if_pos h3] at h
          exact decodeUtf8Two_ne_nil h
        · rw [if_neg h3] at h
          by_cases h4 : b0 < 0xF0
          · rw [if_pos h4] at h
            exact decodeUtf8Three_ne_nil h
          · rw [if_neg h4] at h
            by_cases h5 : b0 < 0xF5
            · rw [if_pos h5] at h
              exact decodeUtf8Four_ne_nil h
            · rw [if_neg h5] at h
              exact absurd h (by simp)

/-- C2 (amended).  For every POST to `/v1/chat/completions` (credential
set) whose body bytes are non-empty, valid UTF-8 and not valid JSON, the
request is not rejected and the bytes sent upstream are byte-identical to
the original inbound body; an *empty* body (`Content-Length` absent or
zero) is treated as an empty string, not an error, but is forwarded in
"json" mode as the serialized empty object, not in raw mode. -/
theorem c2_raw_forwarding (key : List Char) (hkey : key ≠ [])
    (contentLength : Nat) (rfileData : Bytes) (u : UpstreamResult) :
    (∀ t, decodeUtf8 (readBodyBytes contentLength rfileData) = some t →
      readBodyBytes contentLength rfileData ≠ [] → loads t = none →
      upstreamCallCount (doPOST (some key) chatPath contentLength rfileData u) = 1 ∧
      ∃ ob, (doPOST (some key) chatPath contentLength rfileData u).sent = some ob ∧
        ob.body = readBodyBytes contentLength rfileData) ∧
    (readBodyBytes contentLength rfileData = [] →
      ∃ ob, (doPOST (some key) chatPath contentLength rfileData u).sent = some ob ∧
        ob.body = encodeUtf8 (dumps (Json.obj []))) := by
  constructor
  · intro t hdec hne hjson
    rw [readBodyBytes] at hdec hne
    have ht : t ≠ [] := decodeUtf8_ne_nil hne hdec
    unfold doPOST
    rw [if_neg (by simp)]
    simp only []
    rw [if_neg hkey, if_neg hne, hdec]
    simp only []
    rw [if_neg ht, hjson]
    simp only []
    have hraw := encode_decodeUtf8 hdec
    cases u with
    | exn detail => exact ⟨rfl, ⟨_, rfl, hraw⟩⟩
    | ok resp =>
      simp only []
      split
      · split
        · exact ⟨rfl, ⟨_, rfl, hraw⟩⟩
        · exact ⟨rfl, ⟨_, rfl, hraw⟩⟩
      · exact ⟨rfl, ⟨_, rfl, hraw⟩⟩
  · intro hemp
    rw [readBodyBytes] at hemp
    unfold doPOST
    rw [if_neg (by simp)]
    simp only []
    rw [if_neg hkey, if_pos hemp]
    simp only []
    cases u with
    | exn detail => exact ⟨_, rfl, rfl⟩
    | ok resp =>
      simp only []
      split
      · split
        · exact ⟨_, rfl, rfl⟩
        · exact ⟨_, rfl, rfl⟩
      · exact ⟨_, rfl, rfl⟩

/-- Witness for C2 at a concrete input: body `hi!` (not JSON). -/
theorem c2_raw_forwarding_witness :
    upstreamCallCount (doPOST (some ['k']) chatPath 3 [104, 105, 33]
      (UpstreamResult.exn [])) = 1 ∧
    ∃ ob, (doPOST (some ['k']) chatPath 3 [104, 105, 33]
      (UpstreamResult.exn [])).sent = some ob ∧
      ob.body = readBodyBytes 3 [104, 105, 33] :=
  ((c2_raw_forwarding ['k'] (by decide) 3 [104, 105, 33]
    (UpstreamResult.exn [])).1 ['h', 'i', '!'] (by rfl) (by decide) (by rfl))

/-- Counterexample for C2 as frozen: an empty body (Content-Length zero) is
*not* forwarded as-is in raw mode; the bytes sent upstream are `{}` (the
serialized empty JSON object), which differ from the empty inbound body. -/
theorem c2_empty_body_json_mode :
    ∃ ob, (doPOST (some ['k']) chatPath 0 [] (UpstreamResult.exn [])).sent = some ob ∧
      ob.body = [123, 125] ∧ ob.body ≠ ([] : Bytes) := by
  refine ⟨_, rfl, ?_, ?_⟩
  · simp [dumps, dumpsMembers, encodeUtf8, encodeCp]
  · simp [dumps, dumpsMembers, encodeUtf8, encodeCp]

/-- C5.  If the upstream credential is unset or empty, every POST to
`/v1/chat/completions` responds 500 with the fixed misconfiguration JSON
body (`error`/`detail` as in `misconfigJson`) and performs zero upstream
calls. -/
theorem c5_missing_key_500 (apiKey : Option (List Char))
    (hkey : apiKey = none ∨ apiKey = some [])
    (contentLength : Nat) (rfileData : Bytes) (u : UpstreamResult) :
    (doPOST apiKey chatPath contentLength rfileData u).outcome =
      Outcome.reply (sendJson 500 misconfigJson) ∧
    upstreamCallCount (doPOST apiKey chatPath contentLength rfileData u) = 0 := by
  rcases hkey with rfl | rfl
  · unfold doPOST
    rw [if_neg (by simp)]
    exact ⟨rfl, rfl⟩
  · unfold doPOST
    rw [if_neg (by simp)]
    simp only []
    rw [if_pos trivial]
    exact ⟨rfl, rfl⟩

/-- Witness for C5 at a concrete input. -/
theorem c5_missing_key_500_witness :
    (doPOST none chatPath 0 [] (UpstreamResult.exn [])).outcome =
      Outcome.reply (sendJson 500 misconfigJson) ∧
    upstreamCallCount (doPOST none chatPath 0 [] (UpstreamResult.exn [])) = 0 :=
  c5_missing_key_500 none (Or.inl rfl) 0 [] (UpstreamResult.exn [])

/-- C6.  At most one upstream POST is ever attempted (never retried), and a
transport failure of that single call yields a 502 reply whose JSON body
has `error = "Upstream request failed"` and a `detail` field holding the
failure description, with nothing of the upstream forwarded. -/
theorem c6_single_attempt_502 (apiKey : Option (List Char)) (path : List Char)
    (contentLength : Nat) (rfileData : Bytes) (u : UpstreamResult) :
    upstreamCallCount (doPOST apiKey path contentLength rfileData u) ≤ 1 ∧
    (∀ key detail t, apiKey = some key → key ≠ [] → path = chatPath →
      decodeUtf8 (readBodyBytes contentLength rfileData) = some t →
      u = UpstreamResult.exn detail →
      (doPOST apiKey path contentLength rfileData u).outcome =
        Outcome.reply (sendJson 502 (upstreamFailJson detail))) := by
  constructor
  · unfold upstreamCallCount
    split <;> simp
  · intro key detail t hk hkey hpath hdec hu
    subst hk
    subst hpath
    subst hu
    rw [readBodyBytes] at hdec
    unfold doPOST
    rw [if_neg (by simp)]
    simp only []
    rw [if_neg hkey]
    by_cases hBe : (if 0 < contentLength then rfileData.take contentLength else []) = []
    · rw [if_pos hBe]
    · rw [if_neg hBe, hdec]

/-- Witness for C6 at a concrete input. -/
theorem c6_single_attempt_502_witness :
    upstreamCallCount (doPOST (some ['k']) chatPath 0 []
      (UpstreamResult.exn ['o', 'o', 'p', 's'])) ≤ 1 ∧
    (doPOST (some ['k']) chatPath 0 []
      (UpstreamResult.exn ['o', 'o', 'p', 's'])).outcome =
      Outcome.reply (sendJson 502 (upstreamFailJson ['o', 'o', 'p', 's'])) :=
  ⟨(c6_single_attempt_502 (some ['k']) chatPath 0 []
      (UpstreamResult.exn ['o', 'o', 'p', 's'])).1,
   (c6_single_attempt_502 (some ['k']) chatPath 0 []
      (UpstreamResult.exn ['o', 'o', 'p', 's'])).2 ['k'] ['o', 'o', 'p', 's'] []
      rfl (by decide) rfl (by rfl) rfl⟩

/-- C10.  A POST to the forwarding path (credential set) whose body bytes
are non-empty and not valid UTF-8 makes the body-decoding step raise an
uncaught `UnicodeDecodeError`: no upstream call is made and no response of
the spec's taxonomy is written by the handler. -/
theorem c10_invalid_utf8_uncaught (key : List Char) (hkey : key ≠ [])
    (contentLength : Nat) (rfileData : Bytes) (u : UpstreamResult)
    (hne : readBodyBytes contentLength rfileData ≠ [])
    (hdec : decodeUtf8 (readBodyBytes contentLength rfileData) = none) :
    (doPOST (some key) chatPath contentLength rfileData u).outcome =
      Outcome.uncaught ∧
    upstreamCallCount (doPOST (some key) chatPath contentLength rfileData u) = 0 := by
  rw [readBodyBytes] at hne hdec
  unfold doPOST
  rw [if_neg (by simp)]
  simp only []
  rw [if_neg hkey, if_neg hne, hdec]
  exact ⟨rfl, rfl⟩

/-- Witness for C10 at a concrete input: the single byte `0xFF`. -/
theorem c10_invalid_utf8_uncaught_witness :
    (doPOST (some ['k']) chatPath 1 [255] (UpstreamResult.exn [])).outcome =
      Outcome.uncaught ∧
    upstreamCallCount (doPOST (some ['k']) chatPath 1 [255]
      (UpstreamResult.exn [])) = 0 :=
  c10_invalid_utf8_uncaught ['k'] (by decide) 1 [255] (UpstreamResult.exn [])
    (by decide) (by rfl)

/-- Shape of the handler's outcome once the upstream call succeeded: the
content-type dispatch of lines 103–135 of `app.py`. -/
theorem doPOST_ok_outcome (key : List Char) (hkey : key ≠ [])
    (contentLength : Nat) (rfileData : Bytes) (t : List Char)
    (hdec : decodeUtf8 (readBodyBytes contentLength rfileData) = some t)
    (resp : UpstreamResponse) :
    (doPOST (some key) chatPath contentLength rfileData
        (UpstreamResult.ok resp)).outcome =
      (if resp.contentType.getD mAppJson ≠ [] ∧
          hasSub mAppJson (lowerStr (resp.contentType.getD mAppJson)) = true then
        match loadsBytes resp.body with
        | some rj => Outcome.reply (sendJson resp.status rj)
        | none => Outcome.reply ⟨resp.status,
            (hContentType, mTextPlain) :: corsHeaders, resp.body⟩
      else Outcome.reply ⟨resp.status,
        (hContentType, if resp.contentType.getD mAppJson ≠ [] then
            resp.contentType.getD mAppJson else mOctetStream) :: corsHeaders ++
          [(hContentLength, natChars resp.body.length)],
        resp.body⟩) := by
  rw [readBodyBytes] at hdec
  unfold doPOST
  rw [if_neg (by simp)]
  simp only []
  rw [if_neg hkey]
  by_cases hBe : (if 0 < contentLength then rfileData.take contentLength else []) = []
  · rw [if_pos hBe]
    simp only []
    split
    · split <;> rfl
    · rfl
  · rw [if_neg hBe, hdec]
    simp only []
    split
    · split <;> rfl
    · rfl

/-- C3.  When the upstream response's `Content-Type` header contains the
substring `application/json` (case-insensitively): if the upstream body
parses as JSON the handler replies with the upstream status,
`application/json` content type and the parsed-and-re-serialized body
(`_send_json`); if it does not parse, it replies with the upstream status,
`text/plain`, and the raw upstream bytes verbatim — the status is never
escalated. -/
theorem c3_upstream_json_mirroring (key : List Char) (hkey : key ≠ [])
    (contentLength : Nat) (rfileData : Bytes) (t : List Char)
    (hdec : decodeUtf8 (readBodyBytes contentLength rfileData) = some t)
    (resp : UpstreamResponse) (ct : List Char)
    (hct : resp.contentType = some ct)
    (hsub : hasSub mAppJson (lowerStr ct) = true) :
    (∀ rj, loadsBytes resp.body = some rj →
      (doPOST (some key) chatPath contentLength rfileData
          (UpstreamResult.ok resp)).outcome =
        Outcome.reply (sendJson resp.status rj)) ∧
    (loadsBytes resp.body = none →
      (doPOST (some key) chatPath contentLength rfileData
          (UpstreamResult.ok resp)).outcome =
        Outcome.reply ⟨resp.status,
          (hContentType, mTextPlain) :: corsHeaders, resp.body⟩) := by
  have hne : ct ≠ [] := by
    rintro rfl
    exact absurd hsub (by decide)
  have hgd : resp.contentType.getD mAppJson = ct := by
    rw [hct]
    rfl
  constructor
  · intro rj hrj
    rw [doPOST_ok_outcome key hkey contentLength rfileData t hdec resp]
    rw [hgd, if_pos ⟨hne, hsub⟩, hrj]
  · intro hnone
    rw [doPOST_ok_outcome key hkey contentLength rfileData t hdec resp]
    rw [hgd, if_pos ⟨hne, hsub⟩, hnone]

/-- Witness for C3 at a concrete input: upstream body `1`. -/
theorem c3_upstream_json_mirroring_witness :
    (doPOST (some ['k']) chatPath 0 []
        (UpstreamResult.ok ⟨200, some mAppJson, [49]⟩)).outcome =
      Outcome.reply (sendJson 200 (Json.num 1)) :=
  (c3_upstream_json_mirroring ['k'] (by decide) 0 [] [] (by rfl)
    ⟨200, some mAppJson, [49]⟩ mAppJson rfl (by decide)).1 (Json.num 1) (by rfl)

/-- C4 (amended).  For upstream responses whose `Content-Type` header is
*present* and does not contain `application/json` (case-insensitively),
the handler replies with the upstream status, the upstream content type
verbatim (or `application/octet-stream` when the header's value is the
empty string), an explicit `Content-Length`, and the raw upstream bytes
verbatim.  When the header is *absent*, `headers.get("Content-Type",
"application/json")` defaults it to `application/json` and the JSON branch
is taken instead (see the counterexample). -/
theorem c4_non_json_passthrough (key : List Char) (hkey : key ≠ [])
    (contentLength : Nat) (rfileData : Bytes) (t : List Char)
    (hdec : decodeUtf8 (readBodyBytes contentLength rfileData) = some t)
    (resp : UpstreamResponse) (ct : List Char)
    (hct : resp.contentType = some ct)
    (hsub : hasSub mAppJson (lowerStr ct) = false) :
    (doPOST (some key) chatPath contentLength rfileData
        (UpstreamResult.ok resp)).outcome =
      Outcome.reply ⟨resp.status,
        (hContentType, if ct ≠ [] then ct else mOctetStream) ::
          corsHeaders ++ [(hContentLength, natChars resp.body.length)],
        resp.body⟩ := by
  have hgd : resp.contentType.getD mAppJson = ct := by
    rw [hct]
    rfl
  rw [doPOST_ok_outcome key hkey contentLength rfileData t hdec resp]
  rw [hgd, if_neg (by simp [hsub])]

/-- Witness for C4 at a concrete input: upstream `503 text/html`
`<h1>down</h1>`. -/
theorem c4_non_json_passthrough_witness :
    (doPOST (some ['k']) chatPath 0 []
        (UpstreamResult.ok ⟨503, some (("text/html").toList),
          encodeUtf8 (("<h1>down</h1>").toList)⟩)).outcome =
      Outcome.reply ⟨503,
        (hContentType, if ("text/html").toList ≠ [] then
            ("text/html").toList else mOctetStream) :: corsHeaders ++
          [(hContentLength, natChars (encodeUtf8 (("<h1>down</h1>").toList)).length)],
        encodeUtf8 (("<h1>down</h1>").toList)⟩ :=
  c4_non_json_passthrough ['k'] (by decide) 0 [] [] (by rfl)
    ⟨503, some (("text/html").toList), encodeUtf8 (("<h1>down</h1>").toList)⟩
    (("text/html").toList) rfl (by decide)

/-- Counterexample for C4 as frozen: when the upstream supplies *no*
`Content-Type` header and a non-JSON body, the handler does not reply
`application/octet-stream` with the raw bytes; it defaults the content
type to `application/json`, fails to parse, and replies `text/plain`. -/
theorem c4_missing_content_type_counterexample :
    ∃ r, (doPOST (some ['k']) chatPath 0 []
        (UpstreamResult.ok ⟨503, none, [120, 121, 122]⟩)).outcome =
      Outcome.reply r ∧
      r.headers = (hContentType, mTextPlain) :: corsHeaders ∧
      mTextPlain ≠ mOctetStream := by
  exact ⟨_, rfl, rfl, by decide⟩

/-- C9.  The upstream credential is injected solely into the
`Authorization` header of the outbound request: two runs that differ only
in the (set) credential produce the same outcome for every request and
upstream behaviour, and their outbound requests agree on everything except
the `Authorization` header, which is exactly `Bearer <credential>`. -/
theorem c9_credential_noninterference (k1 k2 : List Char)
    (h1 : k1 ≠ []) (h2 : k2 ≠ []) (path : List Char)
    (contentLength : Nat) (rfileData : Bytes) (u : UpstreamResult) :
    (doPOST (some k1) path contentLength rfileData u).outcome =
      (doPOST (some k2) path contentLength rfileData u).outcome ∧
    (∀ ob, (doPOST (some k1) path contentLength rfileData u).sent = some ob →
      ob.authorization = ("Bearer ").toList ++ k1 ∧
      ∃ ob2, (doPOST (some k2) path contentLength rfileData u).sent = some ob2 ∧
        ob2.authorization = ("Bearer ").toList ++ k2 ∧
        ob2.contentType = ob.contentType ∧ ob2.body = ob.body) := by
  unfold doPOST
  by_cases hp : path ≠ chatPath
  · rw [if_pos hp, if_pos hp]
    exact ⟨rfl, by intro ob hob; exact absurd hob (by simp)⟩
  · rw [if_neg hp, if_neg hp]
    simp only []
    rw [if_neg h1, if_neg h2]
    by_cases hBe : (if 0 < contentLength then rfileData.take contentLength else []) = []
    · rw [if_pos hBe]
      simp only []
      cases u with
      | exn detail =>
        refine ⟨rfl, ?_⟩
        intro ob hob
        obtain rfl := Option.some.inj hob
        exact ⟨rfl, _, rfl, rfl, rfl, rfl⟩
      | ok resp =>
        simp only []
        split
        · split
          · refine ⟨rfl, ?_⟩
            intro ob hob
            obtain rfl := Option.some.inj hob
            exact ⟨rfl, _, rfl, rfl, rfl, rfl⟩
          · refine ⟨rfl, ?_⟩
            intro ob hob
            obtain rfl := Option.some.inj hob
            exact ⟨rfl, _, rfl, rfl, rfl, rfl⟩
        · refine ⟨rfl, ?_⟩
          intro ob hob
          obtain rfl := Option.some.inj hob
          exact ⟨rfl, _, rfl, rfl, rfl, rfl⟩
    · rw [if_neg hBe]
      cases hd : decodeUtf8 (if 0 < contentLength then rfileData.take contentLength else []) with
      | none =>
        exact ⟨rfl, by intro ob hob; exact absurd hob (by simp)⟩
      | some t =>
        simp only []
        cases u with
        | exn detail =>
          refine ⟨rfl, ?_⟩
          intro ob hob
          obtain rfl := Option.some.inj hob
          exact ⟨rfl, _, rfl, rfl, rfl, rfl⟩
        | ok resp =>
          simp only []
          split
          · split
            · refine ⟨rfl, ?_⟩
              intro ob hob
              obtain rfl := Option.some.inj hob
              exact ⟨rfl, _, rfl, rfl, rfl, rfl⟩
            · refine ⟨rfl, ?_⟩
              intro ob hob
              obtain rfl := Option.some.inj hob
              exact ⟨rfl, _, rfl, rfl, rfl, rfl⟩
          · refine ⟨rfl, ?_⟩
            intro ob hob
            obtain rfl := Option.some.inj hob
            exact ⟨rfl, _, rfl, rfl, rfl, rfl⟩

/-- Witness for C9 at a concrete input: keys `a` and `b`, body `h`. -/
theorem c9_credential_noninterference_witness :
    (doPOST (some ['a']) chatPath 1 [104] (UpstreamResult.exn [])).outcome =
      (doPOST (some ['b']) chatPath 1 [104] (UpstreamResult.exn [])).outcome ∧
    (⟨("Bearer ").toList ++ ['a'], mAppJson, [104]⟩ :
        OutboundRequest).authorization = ("Bearer ").toList ++ ['a'] ∧
    ∃ ob2, (doPOST (some ['b']) chatPath 1 [104]
        (UpstreamResult.exn [])).sent = some ob2 ∧
      ob2.authorization = ("Bearer ").toList ++ ['b'] ∧
      ob2.contentType = (⟨("Bearer ").toList ++ ['a'], mAppJson, [104]⟩ :
        OutboundRequest).contentType ∧
      ob2.body = (⟨("Bearer ").toList ++ ['a'], mAppJson, [104]⟩ :
        OutboundRequest).body :=
  ⟨(c9_credential_noninterference ['a'] ['b'] (by decide) (by decide)
      chatPath 1 [104] (UpstreamResult.exn [])).1,
   (c9_credential_noninterference ['a'] ['b'] (by decide) (by decide)
      chatPath 1 [104] (UpstreamResult.exn [])).2
      ⟨("Bearer ").toList ++ ['a'], mAppJson, [104]⟩ (by rfl)⟩

/-- C7 (amended).  `GET` with a path other than `/`, `/health` and
`/v1/chat/completions` and `POST` with a path other than
`/v1/chat/completions` yield the 404 `Not Found` JSON reply; `OPTIONS`
always yields 204; a request with any *other* method never reaches the
handler's routing — the serving framework refuses it with 501, not 404. -/
theorem c7_routing (apiKey : Option (List Char)) (path : List Char)
    (contentLength : Nat) (rfileData : Bytes) (u : UpstreamResult) :
    (path ≠ ("/").toList → path ≠ ("/health").toList → path ≠ chatPath →
      (handleRequest apiKey Method.get path contentLength rfileData u).outcome =
        Outcome.reply (sendJson 404 notFoundJson)) ∧
    (path ≠ chatPath →
      (handleRequest apiKey Method.post path contentLength rfileData u).outcome =
        Outcome.reply (sendJson 404 notFoundJson)) ∧
    ((handleRequest apiKey Method.options path contentLength rfileData u).outcome =
      Outcome.reply doOPTIONS) ∧
    (∀ name, (handleRequest apiKey (Method.other name) path contentLength
        rfileData u).outcome = Outcome.reply frameworkUnsupported) := by
  refine ⟨?_, ?_, rfl, fun name => rfl⟩
  · intro hp1 hp2 hp3
    have hcond : ¬(path = ("/").toList ∨ path = ("/health").toList) := by
      rintro (h | h)
      · exact hp1 h
      · exact hp2 h
    have hG : doGET path = sendJson 404 notFoundJson := by
      unfold doGET
      rw [if_neg hcond, if_neg hp3]
    show Outcome.reply (doGET path) = Outcome.reply (sendJson 404 notFoundJson)
    rw [hG]
  · intro hp
    show (doPOST apiKey path contentLength rfileData u).outcome = _
    unfold doPOST
    rw [if_pos hp]

/-- Witness for C7 at a concrete input: path `/nope`. -/
theorem c7_routing_witness :
    (handleRequest (some ['k']) Method.get (("/nope").toList) 0 []
        (UpstreamResult.exn [])).outcome =
      Outcome.reply (sendJson 404 notFoundJson) ∧
    (handleRequest (some ['k']) Method.post (("/nope").toList) 0 []
        (UpstreamResult.exn [])).outcome =
      Outcome.reply (sendJson 404 notFoundJson) :=
  ⟨(c7_routing (some ['k']) (("/nope").toList) 0 [] (UpstreamResult.exn [])).1
      (by decide) (by decide) (by decide),
   (c7_routing (some ['k']) (("/nope").toList) 0 [] (UpstreamResult.exn [])).2.1
      (by decide)⟩

/-- Counterexample for C7 as frozen: a `DELETE` request is answered by the
HTTP framework with 501 `Unsupported method`, not with the handler's 404
`Not Found` JSON. -/
theorem c7_unknown_method_counterexample :
    ∃ r, (handleRequest (some ['k'])
        (Method.other ['D', 'E', 'L', 'E', 'T', 'E']) (("/").toList) 0 []
        (UpstreamResult.exn [])).outcome = Outcome.reply r ∧
      r.status = 501 ∧ r.status ≠ 404 := by
  exact ⟨_, rfl, rfl, by decide⟩

theorem sendJson_content_length (status : Nat) (p : Json) :
    (hContentLength, natChars (sendJson status p).body.length) ∈
      (sendJson status p).headers := by
  simp [sendJson, corsHeaders]

theorem sendJson_no_te (status : Nat) (p : Json) :
    ∀ v, (hTransferEncoding, v) ∉ (sendJson status p).headers := by
  intro v hv
  simp +decide [sendJson, corsHeaders, hContentType, hContentLength,
    hTransferEncoding, mAppJson] at hv

/-- C8 (amended).  Every response the forwarding path writes either carries
an explicit `Content-Length` header equal to the exact byte length of its
body, or it is the invalid-upstream-JSON `text/plain` response, whose
header list (content type followed by the CORS headers) contains no
`Content-Length` at all; no response carries a `Transfer-Encoding` header
(none is chunked). -/
theorem c8_content_length (apiKey : Option (List Char)) (path : List Char)
    (contentLength : Nat) (rfileData : Bytes) (u : UpstreamResult) (r : Response)
    (hr : (doPOST apiKey path contentLength rfileData u).outcome =
      Outcome.reply r) :
    ((hContentLength, natChars r.body.length) ∈ r.headers ∨
      r.headers = (hContentType, mTextPlain) :: corsHeaders) ∧
    (∀ v, (hTransferEncoding, v) ∉ r.headers) := by
  unfold doPOST at hr
  by_cases hp : path ≠ chatPath
  · rw [if_pos hp] at hr
    injection hr with h
    subst h
    exact ⟨Or.inl (sendJson_content_length _ _), sendJson_no_te _ _⟩
  · rw [if_neg hp] at hr
    match apiKey with
    | none =>
      injection hr with h
      subst h
      exact ⟨Or.inl (sendJson_content_length _ _), sendJson_no_te _ _⟩
    | some key =>
      simp only [] at hr
      by_cases hk : key = []
      · rw [if_pos hk] at hr
        injection hr with h
        subst h
        exact ⟨Or.inl (sendJson_content_length _ _), sendJson_no_te _ _⟩
      · rw [if_neg hk] at hr
        cases hbt : (if (if 0 < contentLength then rfileData.take contentLength
            else []) = [] then some [] else decodeUtf8 (if 0 < contentLength then
            rfileData.take contentLength else [])) with
        | none =>
          rw [hbt] at hr
          exact absurd hr (by simp)
        | some bodyText =>
          rw [hbt] at hr
          simp only [] at hr
          cases u with
          | exn detail =>
            injection hr with h
            subst h
            exact ⟨Or.inl (sendJson_content_length _ _), sendJson_no_te _ _⟩
          | ok resp =>
            simp only [] at hr
            split at hr
            · split at hr
              · injection hr with h
                subst h
                exact ⟨Or.inl (sendJson_content_length _ _), sendJson_no_te _ _⟩
              · injection hr with h
                subst h
                refine ⟨Or.inr rfl, ?_⟩
                intro v hv
                simp +decide [corsHeaders, hContentType, hTransferEncoding,
                  mTextPlain] at hv
            · injection hr with h
              subst h
              refine ⟨Or.inl ?_, ?_⟩
              · simp [corsHeaders]
              · intro v hv
                simp +decide [corsHeaders, hContentType, hContentLength,
                  hTransferEncoding] at hv

/-- Witness for C8 at a concrete input (the 404 reply of the forwarding
path, which is sent by `_send_json`). -/
theorem c8_content_length_witness :
    ((hContentLength, natChars (sendJson 404 notFoundJson).body.length) ∈
        (sendJson 404 notFoundJson).headers ∨
      (sendJson 404 notFoundJson).headers =
        (hContentType, mTextPlain) :: corsHeaders) ∧
    (hTransferEncoding, ([] : List Char)) ∉ (sendJson 404 notFoundJson).headers :=
  ⟨(c8_content_length (some ['k']) (("/x").toList) 0 [] (UpstreamResult.exn [])
      (sendJson 404 notFoundJson) (by rfl)).1,
   (c8_content_length (some ['k']) (("/x").toList) 0 [] (UpstreamResult.exn [])
      (sendJson 404 notFoundJson) (by rfl)).2 []⟩

/-- Counterexample for C8 as frozen: when the upstream claims JSON but its
body does not parse, the `text/plain` reply carries *no* `Content-Length`
header. -/
theorem c8_no_content_length_counterexample :
    ∃ r, (doPOST (some ['k']) chatPath 0 []
        (UpstreamResult.ok ⟨200, some mAppJson, [110, 111]⟩)).outcome =
      Outcome.reply r ∧
      ∀ v, (hContentLength, v) ∉ r.headers := by
  refine ⟨_, rfl, ?_⟩
  intro v hv
  simp +decide [corsHeaders, hContentType, hContentLength, mTextPlain] at hv

end GroqProxy
